import Mathlib

/-!
Verification of the Speech-to-Speech Mini backend (src/main.py and
src/test_concurrent_isolation.py) against its natural-language
specification.

The per-connection websocket handler `websocket_call` is embedded as a
step function on an explicit connection state; the three AI collaborators
(Whisper transcription, Zephyr text generation, gTTS synthesis) are
parameters that may return a value or raise, mirroring the black-box
contract of the spec.  Python floats (timestamps, confidences) are
modelled as rationals, byte strings as lists of naturals below 256.
-/

namespace S2S

/-- Python whitespace characters, as recognised by `str.strip` / `str.split`. -/
def isPySpace (c : Char) : Bool :=
  c == ' ' || c == '\t' || c == '\n' || c == '\r' || c == '\x0b' || c == '\x0c'

/-- Python `str.strip()`: remove leading and trailing whitespace
(used by `transcribe_audio`, line 110 of src/main.py). -/
def pyStrip (s : String) : String :=
  String.mk (((s.data.dropWhile isPySpace).reverse.dropWhile isPySpace).reverse)

/-- Helper for `pyWords`, structurally recursive on a fuel bounding the
length of the remaining character list. -/
def pyWordsGo : Nat → List Char → List String
  | 0, _ => []
  | _ + 1, [] => []
  | fuel + 1, c :: cs =>
    if isPySpace c then pyWordsGo fuel cs
    else
      String.mk (List.takeWhile (fun d => !(isPySpace d)) (c :: cs)) ::
        pyWordsGo fuel (List.dropWhile (fun d => !(isPySpace d)) cs)

/-- Python `str.split()` with no argument: skip whitespace, then take a
maximal run of non-whitespace as the next word; empty pieces never occur
(used by `call_llm_streaming`, line 128). -/
def pyWords (l : List Char) : List String := pyWordsGo l.length l

def pySplitWs (s : String) : List String := pyWords s.data

/-- Rational subtraction written in explicitly kernel-computable form
(provably equal to `a - b`); float arithmetic of the source is modelled
exactly on `ℚ`. -/
def ratSub (a b : ℚ) : ℚ := mkRat (a.num * b.den - b.num * a.den) (a.den * b.den)

/-- Rational multiplication in explicitly kernel-computable form
(provably equal to `a * b`). -/
def ratMul (a b : ℚ) : ℚ := mkRat (a.num * b.num) (a.den * b.den)

/-- Python `round()` on a rational: round half to even (line 231 rounds the
latency to milliseconds).  `q.num.fdiv q.den` is the floor of `q`. -/
def pyRound (q : ℚ) : ℤ :=
  let f : ℤ := q.num.fdiv q.den
  let r : ℚ := ratSub q (mkRat f 1)
  if r < mkRat 1 2 then f
  else if mkRat 1 2 < r then f + 1
  else if f % 2 = 0 then f else f + 1

/-- The base64 alphabet used by `base64.b64encode` (line 267). -/
def b64Alphabet : List Char :=
  "ABCDEFGHIJKLMNOPQRSTUVWXYZabcdefghijklmnopqrstuvwxyz0123456789+/".data

def b64Char (n : Nat) : Char := b64Alphabet.getD n '='

def b64CharVal (ch : Char) : Nat := b64Alphabet.indexOf ch

/-- Standard base64 of a byte list, with `=` padding, as `base64.b64encode`. -/
def b64encode : List Nat → List Char
  | [] => []
  | [a] => [b64Char (a / 4), b64Char (a % 4 * 16), '=', '=']
  | [a, b] => [b64Char (a / 4), b64Char (a % 4 * 16 + b / 16), b64Char (b % 16 * 4), '=']
  | a :: b :: c :: rest =>
    b64Char (a / 4) :: b64Char (a % 4 * 16 + b / 16) ::
      b64Char (b % 16 * 4 + c / 64) :: b64Char (c % 64) :: b64encode rest

/-- Reassemble bytes from a list of 6-bit values: full groups of four values
give three bytes; a trailing group of two or three values (a padded final
quantum) gives one or two bytes. -/
def b64decodeVals : List Nat → List Nat
  | [v1, v2] => [v1 * 4 + v2 / 16]
  | [v1, v2, v3] => [v1 * 4 + v2 / 16, v2 % 16 * 16 + v3 / 4]
  | [v1, v2, v3, v4] => [v1 * 4 + v2 / 16, v2 % 16 * 16 + v3 / 4, v3 % 4 * 64 + v4]
  | v1 :: v2 :: v3 :: v4 :: rest =>
    (v1 * 4 + v2 / 16) :: (v2 % 16 * 16 + v3 / 4) :: (v3 % 4 * 64 + v4) :: b64decodeVals rest
  | _ => []

/-- Base64 decoding: drop padding, look every character up in the alphabet,
reassemble bytes. -/
def b64decode (s : List Char) : List Nat :=
  b64decodeVals ((s.filter (fun c => c != '=')).map b64CharVal)

/-- `chunk_audio` (src/main.py lines 146-148): successive 8192-byte slices
`audio_bytes[i:i+8192]` for `i in range(0, len(audio_bytes), 8192)`. -/
def chunk_audio (audio : List Nat) : List (List Nat) :=
  (List.range ((audio.length + 8191) / 8192)).map
    (fun i => (audio.drop (8192 * i)).take 8192)

/-- The word-by-word token list produced by `call_llm_streaming`
(src/main.py lines 125-130): strip the completion text, split it on
whitespace, and yield each word with a trailing space except on the last. -/
def call_llm_streaming_chunks (content : String) : List String :=
  let words := pySplitWs (pyStrip content)
  (List.range words.length).map
    (fun i => words.getD i "" ++ if i < words.length - 1 then " " else "")

/-- The fixed fallback reply of the silence rule (src/main.py line 236). -/
def fallbackMsg : String :=
  "I\x27m sorry, I didn\x27t catch that. Could you repeat?"

deriving instance DecidableEq for Except

/-- The external collaborators (Whisper ASR, Zephyr LLM, gTTS synthesis).
Each may return a value or raise an exception (`Except.error`). -/
structure Collab where
  asr : List Nat → Except String String
  llm : String → Except String String
  tts : String → Except String (List Nat)

/-- `transcribe_audio` (src/main.py lines 104-112): call the ASR collaborator,
strip the text, and derive the confidence: 0.9 if non-empty else 0.0. -/
def transcribe_audio (cb : Collab) (audio : List Nat) : Except String (String × ℚ) :=
  match cb.asr audio with
  | Except.error e => Except.error e
  | Except.ok raw =>
    let text := pyStrip raw
    Except.ok (text, if text = "" then 0 else mkRat 9 10)

/-- Outbound JSON events of the wire protocol (src/main.py `ws.send_json`). -/
inductive Ev where
  | sessionId (sid : String)
  | traceTurnStarted (turnId : String) (ts : ℚ)
  | sttPartial (text : String)
  | sttFinal (text : String) (confidence : ℚ) (latencyMs : ℤ)
  | assistantText (text : String) (isFinal : Bool) (fullText : Option String)
  | ttsAudioChunk (audio : String)
  | ttsDone
  | errorEv (message : String)
deriving DecidableEq, Repr

/-- The wire `type` field of each outbound event, bit-for-bit. -/
def Ev.wireType : Ev → String
  | sessionId _ => "session_id"
  | traceTurnStarted _ _ => "trace_event"
  | sttPartial _ => "stt_partial"
  | sttFinal _ _ _ => "stt_final"
  | assistantText _ _ _ => "assistant_text"
  | ttsAudioChunk _ => "tts_audio_chunk"
  | ttsDone => "tts_done"
  | errorEv _ => "error"

/-- One row of the `turns` table (src/main.py lines 55-65). -/
structure TurnRec where
  id : String
  session_id : String
  started_at : ℚ
  user_transcript_final : Option String := none
  assistant_text : Option String := none
  ended_at : Option ℚ := none
  time_to_first_partial : Option ℚ := none
  time_to_final_transcript : Option ℚ := none
  time_to_first_audio : Option ℚ := none
deriving DecidableEq, Repr

/-- An observable action of the handler: sending an event to the client, or
committing the current turn row to the database. -/
inductive Act where
  | send (e : Ev)
  | commit (t : TurnRec)
deriving DecidableEq, Repr

/-- The events sent, in order, within an action trace. -/
def sendsOf (acts : List Act) : List Ev :=
  acts.filterMap (fun a => match a with | Act.send e => some e | _ => none)

/-- The turn-row snapshots committed, in order, within an action trace. -/
def commitsOf (acts : List Act) : List TurnRec :=
  acts.filterMap (fun a => match a with | Act.commit t => some t | _ => none)

/-- The last committed version of the turn row, i.e. what the database holds
after the trace. -/
def lastCommit (acts : List Act) : Option TurnRec :=
  (commitsOf acts).getLast?

/-- The mutable per-connection state of `websocket_call`
(src/main.py lines 159-167), together with the committed turn rows and a
counter indexing successive clock reads. -/
structure ConnState where
  audio_buffer : List Nat
  turn_start_time : Option ℚ
  current_turn_id : Option String
  status : String
  turns : List TurnRec
  clk : Nat
  turnCtr : Nat
deriving DecidableEq, Repr

/-- Inbound client messages, as demultiplexed by the handler loop
(src/main.py lines 173-180): binary audio frames and parsed JSON control
messages (`start`, `stop`, `end_call`, anything else). -/
inductive InMsg where
  | audio (b : List Nat)
  | start
  | stop
  | endCall
  | other
deriving DecidableEq, Repr

/-- The TTS stage of the stop pipeline (src/main.py lines 255-275):
synthesize the reply, chunk it, record time-to-first-audio on the first
chunk and commit immediately, stream the base64 chunks, emit `tts_done`,
then commit the final reply text and turn end timestamp. -/
def ttsPhase (cb : Collab) (clock : Nat → ℚ) (k : Nat) (t0 : ℚ)
    (turn : TurnRec) (acts : List Act) (reply : String) :
    List Act × Nat × Option String :=
  match cb.tts reply with
  | Except.error e => (acts, k, some e)
  | Except.ok audio =>
    match chunk_audio audio with
    | [] =>
      let turnF := { turn with assistant_text := some reply, ended_at := some (clock k) }
      (acts ++ [Act.send Ev.ttsDone, Act.commit turnF], k + 1, none)
    | c :: rest =>
      let ttfa := ratSub (clock k) t0
      let turn2 := { turn with time_to_first_audio := some ttfa }
      let chunkActs :=
        Act.commit turn2 :: Act.send (Ev.ttsAudioChunk (String.mk (b64encode c))) ::
          rest.map (fun c2 => Act.send (Ev.ttsAudioChunk (String.mk (b64encode c2))))
      let turnF := { turn2 with assistant_text := some reply, ended_at := some (clock (k + 1)) }
      (acts ++ chunkActs ++ [Act.send Ev.ttsDone, Act.commit turnF], k + 2, none)

/-- The stop pipeline (src/main.py lines 204-275), entered with a non-empty
frozen buffer `raw`, the turn start time `t0` and turn id `tid`: create and
commit the turn row, emit the partial stub, transcribe, commit transcript and
latency, emit the final transcript, apply the silence rule or stream the
LLM reply word-by-word, then run the TTS stage.  Returns the action trace,
the next clock index, and the exception if a collaborator raised. -/
def processStop (cb : Collab) (clock : Nat → ℚ) (k : Nat) (t0 : ℚ)
    (tid sid : String) (raw : List Nat) : List Act × Nat × Option String :=
  let turn0 : TurnRec := { id := tid, session_id := sid, started_at := t0 }
  let acts0 := [Act.commit turn0, Act.send (Ev.sttPartial "...")]
  match transcribe_audio cb raw with
  | Except.error e => (acts0, k, some e)
  | Except.ok (transcript, confidence) =>
    let ttf := ratSub (clock k) t0
    let turn1 := { turn0 with
      time_to_final_transcript := some ttf,
      user_transcript_final := some transcript }
    let acts1 := acts0 ++
      [Act.commit turn1,
       Act.send (Ev.sttFinal transcript confidence (pyRound (ratMul ttf (mkRat 1000 1))))]
    if transcript = "" ∨ confidence < mkRat 3 10 then
      ttsPhase cb clock (k + 1) t0 turn1 acts1 fallbackMsg
    else
      match cb.llm transcript with
      | Except.error e => (acts1, k + 1, some e)
      | Except.ok content =>
        let chunks := call_llm_streaming_chunks content
        let reply := chunks.foldl (fun acc w => acc ++ w) ""
        let acts2 := acts1 ++
          chunks.map (fun w => Act.send (Ev.assistantText w false none)) ++
          [Act.send (Ev.assistantText "" true (some reply))]
        ttsPhase cb clock (k + 1) t0 turn1 acts2 reply

/-- Result of handling one inbound message: continue the loop, break out of
it (`end_call`), or propagate an exception out of the loop. -/
inductive StepOut where
  | ok (st : ConnState) (acts : List Act)
  | ended (st : ConnState) (acts : List Act)
  | exn (st : ConnState) (acts : List Act) (err : String)
deriving DecidableEq, Repr

/-- One iteration of the `while True` message loop (src/main.py lines
170-278).  `clock` is the process clock sampled at successive indices;
`tids` enumerates the fresh turn UUIDs. -/
def step (cb : Collab) (clock : Nat → ℚ) (tids : Nat → String) (sid : String)
    (st : ConnState) (m : InMsg) : StepOut :=
  match m with
  | InMsg.audio b =>
    if b = [] then StepOut.ok st []
    else StepOut.ok { st with audio_buffer := st.audio_buffer ++ b } []
  | InMsg.start =>
    let t0 := clock st.clk
    let tid := tids st.turnCtr
    StepOut.ok
      { st with audio_buffer := [], turn_start_time := some t0,
                current_turn_id := some tid, status := "active",
                clk := st.clk + 1, turnCtr := st.turnCtr + 1 }
      [Act.send (Ev.traceTurnStarted tid t0)]
  | InMsg.stop =>
    if st.audio_buffer = [] then
      StepOut.ok st [Act.send (Ev.errorEv "No audio received")]
    else
      match st.turn_start_time with
      | none => StepOut.exn st [] "TypeError: utcfromtimestamp(None)"
      | some t0 =>
        let tid := st.current_turn_id.getD ""
        let r := processStop cb clock st.clk t0 tid sid st.audio_buffer
        let st' := { st with audio_buffer := [], clk := r.2.1,
                             turns := st.turns ++ (lastCommit r.1).toList }
        match r.2.2 with
        | none => StepOut.ok st' r.1
        | some e => StepOut.exn st' r.1 e
  | InMsg.endCall => StepOut.ended st []
  | InMsg.other => StepOut.ok st []

/-- How a run of the message loop terminated: inbound messages exhausted
(disconnect), `end_call` break, or an uncaught exception. -/
inductive Termination where
  | normal
  | endCall
  | exception (e : String)
deriving DecidableEq, Repr

/-- The message loop: fold `step` over the inbound messages, stopping at a
break or an uncaught exception. -/
def runAux (cb : Collab) (clock : Nat → ℚ) (tids : Nat → String) (sid : String) :
    List InMsg → ConnState → ConnState × List Act × Termination
  | [], st => (st, [], Termination.normal)
  | m :: ms, st =>
    match step cb clock tids sid st m with
    | StepOut.ok st' acts =>
      let r := runAux cb clock tids sid ms st'
      (r.1, acts ++ r.2.1, r.2.2)
    | StepOut.ended st' acts => (st', acts, Termination.endCall)
    | StepOut.exn st' acts e => (st', acts, Termination.exception e)

/-- The connection state just after accept (src/main.py lines 156-167). -/
def initState : ConnState :=
  { audio_buffer := [], turn_start_time := none, current_turn_id := none,
    status := "connected", turns := [], clk := 0, turnCtr := 0 }

/-- A whole connection: send the session id, run the message loop, then the
`finally` block marks the call ended (src/main.py lines 152-287). -/
def run (cb : Collab) (clock : Nat → ℚ) (tids : Nat → String) (sid : String)
    (msgs : List InMsg) : ConnState × List Act × Termination :=
  let r := runAux cb clock tids sid msgs initState
  ({ r.1 with status := "ended", clk := r.1.clk + 1 },
   Act.send (Ev.sessionId sid) :: r.2.1, r.2.2)

/-- The silence-rule decision exactly as computed by
`test_low_confidence_detection` (src/test_concurrent_isolation.py lines
124-127): strip the text, then `not transcript or confidence < 0.3`. -/
def shouldFallback (text : String) (confidence : ℚ) : Bool :=
  decide (pyStrip text = "") || decide (confidence < mkRat 3 10)

/-- Modelled from the spec: the Session Registry (`active_sessions`) is
referenced by src/test_concurrent_isolation.py but is missing from
src/main.py; spec section 4.1 specifies `lookup(id)` returning the handle
or not-found.  The registry is a keyed map from session identifier to
connection handle. -/
def lookupSession {H : Type} : List (String × H) → String → Option H
  | [], _ => none
  | (k, v) :: rest, id => if k = id then some v else lookupSession rest id

/-- Modelled from the spec: section 4.1 `register(id, handle)` stores a fresh
mapping and fails if the identifier already exists (never silently
overwrites). -/
def registerSession {H : Type} (reg : List (String × H)) (id : String) (h : H) :
    Except String (List (String × H)) :=
  match lookupSession reg id with
  | some _ => Except.error "session id already registered"
  | none => Except.ok ((id, h) :: reg)

/-- Modelled from the spec: section 4.1 `unregister(id)` is idempotent
removal. -/
def unregisterSession {H : Type} (reg : List (String × H)) (id : String) :
    List (String × H) :=
  reg.filter (fun p => decide (p.1 ≠ id))

/-- Pipeline stage of an outbound event, for ordering statements: the
stop pipeline emits stages in non-decreasing order. -/
def stageOf : Ev → Nat
  | Ev.sessionId _ => 0
  | Ev.traceTurnStarted _ _ => 0
  | Ev.errorEv _ => 0
  | Ev.sttPartial _ => 1
  | Ev.sttFinal _ _ _ => 2
  | Ev.assistantText _ _ _ => 3
  | Ev.ttsAudioChunk _ => 4
  | Ev.ttsDone => 5

def isAssistantEv : Ev → Bool
  | Ev.assistantText _ _ _ => true
  | _ => false

def isFinalAssistantEv : Ev → Bool
  | Ev.assistantText _ true _ => true
  | _ => false

def isChunkEv : Ev → Bool
  | Ev.ttsAudioChunk _ => true
  | _ => false

def isTraceStartedEv : Ev → Bool
  | Ev.traceTurnStarted _ _ => true
  | _ => false

/-- Texts of the streamed (non-final) assistant token events, in order. -/
def assistPartialTexts (evs : List Ev) : List String :=
  evs.filterMap (fun e => match e with
    | Ev.assistantText t false _ => some t
    | _ => none)

/-- `full_text` payloads of the terminal assistant events, in order. -/
def assistFinalFullTexts (evs : List Ev) : List (Option String) :=
  evs.filterMap (fun e => match e with
    | Ev.assistantText _ true ft => some ft
    | _ => none)

/-- Base64 payloads of the audio chunk events, in order. -/
def chunkPayloads (evs : List Ev) : List String :=
  evs.filterMap (fun e => match e with
    | Ev.ttsAudioChunk s => some s
    | _ => none)

/-- Concrete collaborators for evaluating the model: ASR hears
"hello there", the LLM replies "Hi there friend", synthesis returns
three bytes. -/
def cbW : Collab :=
  { asr := fun _ => Except.ok " hello there ",
    llm := fun _ => Except.ok "Hi there friend",
    tts := fun _ => Except.ok [1, 2, 3] }

/-- Concrete collaborators whose ASR hears only whitespace (silence). -/
def cbSil : Collab :=
  { asr := fun _ => Except.ok "   ",
    llm := fun _ => Except.ok "x",
    tts := fun _ => Except.ok [9] }

/-- Concrete collaborators whose ASR raises an exception. -/
def cbFail : Collab :=
  { asr := fun _ => Except.error "boom",
    llm := fun _ => Except.ok "x",
    tts := fun _ => Except.ok [9] }

/-- A concrete monotone clock: tick `k` reads `k` seconds. -/
def clockW : Nat → ℚ := fun k => mkRat k 1

/-- Concrete fresh turn identifiers. -/
def tidsW : Nat → String := fun n => "t" ++ toString n

/-- A concrete freshly created turn row. -/
def turnW : TurnRec := { id := "t0", session_id := "s", started_at := 0 }

/-- A concrete recording state: one "start" processed, one audio frame
buffered. -/
def stRec : ConnState :=
  { audio_buffer := [1], turn_start_time := some (clockW 0),
    current_turn_id := some "t0", status := "active", turns := [],
    clk := 1, turnCtr := 1 }

/-- The connection state right after the first "start" on a fresh
connection. -/
def stStart : ConnState :=
  { audio_buffer := [], turn_start_time := some (clockW 0),
    current_turn_id := some "t0", status := "active", turns := [],
    clk := 1, turnCtr := 1 }

/-- `stRec` after the turn-creation commit of a stop whose transcription
then raised: buffer frozen and cleared, the bare turn row committed. -/
def stRecFailed : ConnState :=
  { audio_buffer := [], turn_start_time := some (clockW 0),
    current_turn_id := some "t0", status := "active",
    turns := [{ id := "t0", session_id := "s", started_at := clockW 0 }],
    clk := 1, turnCtr := 1 }

/-!  Theorems. -/

/-- Claim C2: a "stop" received while the audio buffer is empty is rejected:
the handler emits exactly one `error` event with message "No audio received",
the connection state (buffer, current turn id, turn-start time, call status,
committed turns) is returned unchanged, and the message loop continues with
the subsequent messages. -/
theorem empty_stop_rejected (cb : Collab) (clock : Nat → ℚ)
    (tids : Nat → String) (sid : String) (st : ConnState) (ms : List InMsg)
    (h : st.audio_buffer = []) :
    step cb clock tids sid st InMsg.stop
      = StepOut.ok st [Act.send (Ev.errorEv "No audio received")] ∧
    runAux cb clock tids sid (InMsg.stop :: ms) st
      = ((runAux cb clock tids sid ms st).1,
         Act.send (Ev.errorEv "No audio received") :: (runAux cb clock tids sid ms st).2.1,
         (runAux cb clock tids sid ms st).2.2) := by
  have hstep : step cb clock tids sid st InMsg.stop
      = StepOut.ok st [Act.send (Ev.errorEv "No audio received")] := by
    simp [step, h]
  refine ⟨hstep, ?_⟩
  simp [runAux, hstep]

/-- Witness for C2: the claim applied to the freshly accepted connection
state, whose buffer is empty, with no further messages. -/
theorem empty_stop_rejected_witness :
    initState.audio_buffer = [] ∧
    (step cbW clockW tidsW "s" initState InMsg.stop
      = StepOut.ok initState [Act.send (Ev.errorEv "No audio received")] ∧
    runAux cbW clockW tidsW "s" [InMsg.stop] initState
      = ((runAux cbW clockW tidsW "s" [] initState).1,
         Act.send (Ev.errorEv "No audio received") :: (runAux cbW clockW tidsW "s" [] initState).2.1,
         (runAux cbW clockW tidsW "s" [] initState).2.2)) :=
  ⟨rfl, empty_stop_rejected cbW clockW tidsW "s" initState [] rfl⟩

/-- Claim C8: the Session Registry maps each live call identifier to its
own connection handle: `register` stores a fresh mapping and fails rather
than silently overwriting an existing identifier; `unregister` is
idempotent removal; and for identifiers A ≠ B, looking up B after
registering A returns exactly B's entry (never A's handle), and
unregistering A leaves B's entry untouched. -/
theorem session_registry_contract {H : Type} (reg : List (String × H))
    (A B : String) (hA : H) (hAB : A ≠ B) :
    (lookupSession reg A = none →
      registerSession reg A hA = Except.ok ((A, hA) :: reg)) ∧
    (∀ h0, lookupSession reg A = some h0 →
      registerSession reg A hA = Except.error "session id already registered") ∧
    lookupSession ((A, hA) :: reg) A = some hA ∧
    lookupSession ((A, hA) :: reg) B = lookupSession reg B ∧
    unregisterSession (unregisterSession reg A) A = unregisterSession reg A ∧
    lookupSession (unregisterSession reg A) B = lookupSession reg B := by
  refine ⟨?_, ?_, ?_, ?_, ?_, ?_⟩
  · intro h
    simp [registerSession, h]
  · intro h0 h
    simp [registerSession, h]
  · simp [lookupSession]
  · simp [lookupSession, hAB]
  · simp [unregisterSession, List.filter_filter]
  · induction reg with
    | nil => rfl
    | cons p rest ih =>
      obtain ⟨k, v⟩ := p
      by_cases hk : k = A
      · subst hk
        simp [unregisterSession, lookupSession, hAB] at ih ⊢
        simpa [Ne.symm hAB] using ih
      · by_cases hb : k = B
        · subst hb
          simp [unregisterSession, lookupSession, hk] at ih ⊢
        · simp [unregisterSession, lookupSession, hk, hb] at ih ⊢
          exact ih

/-- Witness for C8: the contract applied to a concrete two-entry registry
with distinct identifiers. -/
theorem session_registry_contract_witness :
    ("a" : String) ≠ "b" ∧
    ((lookupSession [("b", 1)] "a" = none →
      registerSession [("b", 1)] "a" 0 = Except.ok [("a", 0), ("b", 1)]) ∧
    (∀ h0, lookupSession [("b", 1)] "a" = some h0 →
      registerSession [("b", 1)] "a" 0 = Except.error "session id already registered") ∧
    lookupSession [("a", 0), ("b", 1)] "a" = some 0 ∧
    lookupSession [("a", 0), ("b", 1)] "b" = lookupSession [("b", 1)] "b" ∧
    unregisterSession (unregisterSession [("b", 1)] "a") "a" = unregisterSession [("b", 1)] "a" ∧
    lookupSession (unregisterSession [("b", 1)] "a") "b" = lookupSession [("b", 1)] "b") :=
  ⟨by decide, session_registry_contract [("b", 1)] "a" "b" 0 (by decide)⟩

/-- Claim C10: processing "stop" with a non-empty buffer requires a
preceding "start" on the connection.  First, any message sequence without a
"start" leaves `turn_start_time` and `current_turn_id` at `None`; second, a
"stop" with a non-empty buffer in that situation makes the turn-creation
step fail (converting `turn_start_time = None` to a timestamp raises), so
no turn row is created and the loop terminates exceptionally. -/
theorem stop_requires_start (cb : Collab) (clock : Nat → ℚ)
    (tids : Nat → String) (sid : String) :
    (∀ (msgs : List InMsg) (st : ConnState),
      (∀ m ∈ msgs, m ≠ InMsg.start) →
      st.turn_start_time = none → st.current_turn_id = none →
      (runAux cb clock tids sid msgs st).1.turn_start_time = none ∧
      (runAux cb clock tids sid msgs st).1.current_turn_id = none) ∧
    (∀ (st : ConnState) (ms : List InMsg),
      st.audio_buffer ≠ [] → st.turn_start_time = none →
      step cb clock tids sid st InMsg.stop
        = StepOut.exn st [] "TypeError: utcfromtimestamp(None)" ∧
      runAux cb clock tids sid (InMsg.stop :: ms) st
        = (st, [], Termination.exception "TypeError: utcfromtimestamp(None)")) := by
  have hstop : ∀ (st : ConnState), st.audio_buffer ≠ [] → st.turn_start_time = none →
      step cb clock tids sid st InMsg.stop
        = StepOut.exn st [] "TypeError: utcfromtimestamp(None)" := by
    intro st hb ht
    simp [step, hb, ht]
  constructor
  · intro msgs
    induction msgs with
    | nil =>
      intro st _ ht hc
      exact ⟨ht, hc⟩
    | cons m ms ih =>
      intro st hno ht hc
      have hm : m ≠ InMsg.start := hno m (List.mem_cons_self m ms)
      have hms : ∀ x ∈ ms, x ≠ InMsg.start := fun x hx => hno x (List.mem_cons_of_mem m hx)
      cases m with
      | audio b =>
        by_cases hb : b = []
        · simpa [runAux, step, hb] using ih st hms ht hc
        · simpa [runAux, step, hb] using
            ih { st with audio_buffer := st.audio_buffer ++ b } hms ht hc
      | start => exact absurd rfl hm
      | stop =>
        by_cases hb : st.audio_buffer = []
        · simpa [runAux, step, hb] using ih st hms ht hc
        · simp [runAux, hstop st hb ht, ht, hc]
      | endCall => simpa [runAux, step] using ⟨ht, hc⟩
      | other => simpa [runAux, step] using ih st hms ht hc
  · intro st ms hb ht
    refine ⟨hstop st hb ht, ?_⟩
    simp [runAux, hstop st hb ht]

/-- Witness for C10: a connection that receives an audio frame and then
"stop", with no "start" ever sent. -/
theorem stop_requires_start_witness :
    ((∀ m ∈ [InMsg.audio [5]], m ≠ InMsg.start) ∧
     initState.turn_start_time = none ∧ initState.current_turn_id = none ∧
     ({ initState with audio_buffer := [5] } : ConnState).audio_buffer ≠ []) ∧
    ((runAux cbW clockW tidsW "s" [InMsg.audio [5]] initState).1.turn_start_time = none ∧
     (runAux cbW clockW tidsW "s" [InMsg.audio [5]] initState).1.current_turn_id = none) ∧
    (step cbW clockW tidsW "s" { initState with audio_buffer := [5] } InMsg.stop
       = StepOut.exn { initState with audio_buffer := [5] } []
           "TypeError: utcfromtimestamp(None)" ∧
     runAux cbW clockW tidsW "s" [InMsg.stop] { initState with audio_buffer := [5] }
       = ({ initState with audio_buffer := [5] }, [],
          Termination.exception "TypeError: utcfromtimestamp(None)")) :=
  ⟨⟨by decide, rfl, rfl, by decide⟩,
   (stop_requires_start cbW clockW tidsW "s").1 [InMsg.audio [5]] initState
     (by decide) rfl rfl,
   (stop_requires_start cbW clockW tidsW "s").2 { initState with audio_buffer := [5] } []
     (by decide) rfl⟩

/-- Dropping a prefix satisfying `p` is idempotent. -/
theorem dropWhile_dropWhile {α : Type} (p : α → Bool) (l : List α) :
    List.dropWhile p (List.dropWhile p l) = List.dropWhile p l := by
  induction l with
  | nil => rfl
  | cons a t ih =>
    by_cases h : p a
    · simp [List.dropWhile_cons, h, ih]
    · simp [List.dropWhile_cons, h]

/-- If `dropWhile p` leaves a non-empty list unchanged, its head fails `p`. -/
theorem dropWhile_head_false {α : Type} (p : α → Bool) (a : α) (t : List α)
    (h : List.dropWhile p (a :: t) = a :: t) : p a = false := by
  by_contra hcontra
  have hp : p a = true := by revert hcontra; cases p a <;> simp
  rw [List.dropWhile_cons, if_pos hp] at h
  have hlen := congrArg List.length h
  have hle := (List.dropWhile_sublist (l := t) (p := p)).length_le
  simp at hlen
  omega

/-- Python `str.strip()` is idempotent. -/
theorem pyStrip_idem (s : String) : pyStrip (pyStrip s) = pyStrip s := by
  unfold pyStrip
  set p := isPySpace with hp
  set l1 := s.data.dropWhile p with hl1
  set r := (l1.reverse.dropWhile p).reverse with hr
  have hl1fix : List.dropWhile p l1 = l1 := dropWhile_dropWhile p s.data
  have hrrev : r.reverse = l1.reverse.dropWhile p := by
    rw [hr, List.reverse_reverse]
  have hr_prefix : ∃ u, r ++ u = l1 := by
    obtain ⟨tpre, htpre⟩ := List.dropWhile_suffix (l := l1.reverse) p
    refine ⟨tpre.reverse, ?_⟩
    have := congrArg List.reverse htpre
    rw [List.reverse_append, List.reverse_reverse] at this
    rw [hr]
    exact this
  have hstep1 : List.dropWhile p r = r := by
    cases hcase : r with
    | nil => rfl
    | cons a t =>
      obtain ⟨u, hu⟩ := hr_prefix
      rw [hcase] at hu
      have hl1eq : l1 = a :: (t ++ u) := by rw [← hu]; rfl
      have hafalse : p a = false := by
        apply dropWhile_head_false p a (t ++ u)
        rw [← hl1eq]
        exact hl1fix
      rw [List.dropWhile_cons, if_neg (by simp [hafalse])]
  have hstep2 : List.dropWhile p r.reverse = r.reverse := by
    rw [hrrev]
    exact dropWhile_dropWhile p l1.reverse
  have hdata : (String.mk r).data = r := rfl
  show String.mk (((String.mk r).data.dropWhile p).reverse.dropWhile p).reverse = String.mk r
  rw [hdata, hstep1, hstep2, List.reverse_reverse]

/-- Inversion of a successful TTS stage: synthesis returned audio, and the
trace extends `acts0` with either (no chunks) just `tts_done` and the final
commit, or (some chunks) the time-to-first-audio commit, the base64 chunk
events in order, `tts_done`, and the final commit. -/
theorem ttsPhase_ok (cb : Collab) (clock : Nat → ℚ) (k : Nat) (t0 : ℚ)
    (turn : TurnRec) (acts0 : List Act) (reply : String)
    (acts : List Act) (k' : Nat)
    (hrun : ttsPhase cb clock k t0 turn acts0 reply = (acts, k', none)) :
    ∃ audio, cb.tts reply = Except.ok audio ∧
      ((chunk_audio audio = [] ∧
        acts = acts0 ++ [Act.send Ev.ttsDone,
          Act.commit { turn with assistant_text := some reply,
                                 ended_at := some (clock k) }] ∧
        k' = k + 1) ∨
       (∃ c rest, chunk_audio audio = c :: rest ∧
        acts = acts0 ++
          (Act.commit { turn with time_to_first_audio := some (ratSub (clock k) t0) } ::
           Act.send (Ev.ttsAudioChunk (String.mk (b64encode c))) ::
           rest.map (fun c2 => Act.send (Ev.ttsAudioChunk (String.mk (b64encode c2))))) ++
          [Act.send Ev.ttsDone,
           Act.commit { turn with time_to_first_audio := some (ratSub (clock k) t0),
                                  assistant_text := some reply,
                                  ended_at := some (clock (k + 1)) }] ∧
        k' = k + 2)) := by
  unfold ttsPhase at hrun
  split at hrun
  next e heq => simp at hrun
  next audio heq =>
    refine ⟨audio, heq, ?_⟩
    split at hrun
    next hch =>
      simp only [Prod.mk.injEq] at hrun
      exact Or.inl ⟨hch, hrun.1.symm, hrun.2.1.symm⟩
    next c rest hch =>
      simp only [Prod.mk.injEq] at hrun
      exact Or.inr ⟨c, rest, hch, hrun.1.symm, hrun.2.1.symm⟩

/-- The action trace the orchestrator has produced by the end of the STT
stage of a stop: turn-row creation commit, partial stub, transcript commit,
final-transcript event. -/
def sttActs (clock : Nat → ℚ) (k : Nat) (t0 : ℚ) (tid sid : String)
    (t : String) (c : ℚ) : List Act :=
  [Act.commit { id := tid, session_id := sid, started_at := t0 },
   Act.send (Ev.sttPartial "..."),
   Act.commit { id := tid, session_id := sid, started_at := t0,
                time_to_final_transcript := some (ratSub (clock k) t0),
                user_transcript_final := some t },
   Act.send (Ev.sttFinal t c (pyRound (ratMul (ratSub (clock k) t0) (mkRat 1000 1))))]

/-- The turn row as committed at the end of the STT stage. -/
def sttTurn (clock : Nat → ℚ) (k : Nat) (t0 : ℚ) (tid sid : String)
    (t : String) : TurnRec :=
  { id := tid, session_id := sid, started_at := t0,
    time_to_final_transcript := some (ratSub (clock k) t0),
    user_transcript_final := some t }

/-- The streamed-token actions of the LLM stage for a given completion. -/
def llmActs (content : String) : List Act :=
  (call_llm_streaming_chunks content).map
      (fun w => Act.send (Ev.assistantText w false none)) ++
    [Act.send (Ev.assistantText "" true
      (some ((call_llm_streaming_chunks content).foldl (fun acc w => acc ++ w) "")))]

/-- Inversion of a successful stop pipeline: transcription returned some
`(t, c)`; then either the silence rule fired and the TTS stage ran on the
fixed fallback reply with no assistant events, or the LLM returned a
completion which was streamed word-by-word before the TTS stage ran on it. -/
theorem processStop_ok (cb : Collab) (clock : Nat → ℚ) (k : Nat) (t0 : ℚ)
    (tid sid : String) (raw : List Nat) (acts : List Act) (k' : Nat)
    (hrun : processStop cb clock k t0 tid sid raw = (acts, k', none)) :
    ∃ t c, transcribe_audio cb raw = Except.ok (t, c) ∧
      (((t = "" ∨ c < mkRat 3 10) ∧
        ttsPhase cb clock (k + 1) t0 (sttTurn clock k t0 tid sid t)
          (sttActs clock k t0 tid sid t c) fallbackMsg = (acts, k', none)) ∨
       (¬(t = "" ∨ c < mkRat 3 10) ∧ ∃ content, cb.llm t = Except.ok content ∧
        ttsPhase cb clock (k + 1) t0 (sttTurn clock k t0 tid sid t)
          (sttActs clock k t0 tid sid t c ++ llmActs content)
          ((call_llm_streaming_chunks content).foldl (fun acc w => acc ++ w) "")
          = (acts, k', none))) := by
  unfold processStop at hrun
  split at hrun
  next e heq => simp at hrun
  next t c heq =>
    refine ⟨t, c, heq, ?_⟩
    split at hrun
    next hcond =>
      refine Or.inl ⟨hcond, ?_⟩
      simpa [sttTurn, sttActs] using hrun
    next hcond =>
      refine Or.inr ⟨hcond, ?_⟩
      split at hrun
      next e heq2 => simp at hrun
      next content heq2 =>
        refine ⟨content, heq2, ?_⟩
        simpa [sttTurn, sttActs, llmActs, List.append_assoc] using hrun

@[simp]
theorem sendsOf_nil : sendsOf [] = [] := rfl

@[simp]
theorem sendsOf_cons_send (e : Ev) (l : List Act) :
    sendsOf (Act.send e :: l) = e :: sendsOf l := rfl

@[simp]
theorem sendsOf_cons_commit (t : TurnRec) (l : List Act) :
    sendsOf (Act.commit t :: l) = sendsOf l := rfl

@[simp]
theorem commitsOf_nil : commitsOf [] = [] := rfl

@[simp]
theorem commitsOf_cons_send (e : Ev) (l : List Act) :
    commitsOf (Act.send e :: l) = commitsOf l := rfl

@[simp]
theorem commitsOf_cons_commit (t : TurnRec) (l : List Act) :
    commitsOf (Act.commit t :: l) = t :: commitsOf l := rfl

@[simp]
theorem sendsOf_append (a b : List Act) : sendsOf (a ++ b) = sendsOf a ++ sendsOf b := by
  simp [sendsOf]

@[simp]
theorem commitsOf_append (a b : List Act) :
    commitsOf (a ++ b) = commitsOf a ++ commitsOf b := by
  simp [commitsOf]

@[simp]
theorem sendsOf_map_send {α : Type} (g : α → Ev) (l : List α) :
    sendsOf (l.map (fun x => Act.send (g x))) = l.map g := by
  induction l with
  | nil => rfl
  | cons x xs ih => rw [List.map_cons, sendsOf_cons_send, ih, List.map_cons]

@[simp]
theorem commitsOf_map_send {α : Type} (g : α → Ev) (l : List α) :
    commitsOf (l.map (fun x => Act.send (g x))) = [] := by
  induction l with
  | nil => rfl
  | cons x xs ih => rw [List.map_cons, commitsOf_cons_send, ih]

/-- Every successful TTS stage ends its trace with `tts_done` followed by the
final commit of the turn row, so the database ends up holding that row. -/
@[simp]
theorem lastCommit_concat_commit (acts : List Act) (t : TurnRec) :
    lastCommit (acts ++ [Act.send Ev.ttsDone, Act.commit t]) = some t := by
  have h : commitsOf (acts ++ [Act.send Ev.ttsDone, Act.commit t])
      = commitsOf acts ++ [t] := by simp
  rw [lastCommit, h, List.getLast?_concat]

/-- The transcript returned by `transcribe_audio` is already stripped, and
its confidence is 0.9 for a non-empty transcript and 0.0 otherwise. -/
theorem transcribe_audio_stripped (cb : Collab) (raw : List Nat) (t : String) (c : ℚ)
    (hstt : transcribe_audio cb raw = Except.ok (t, c)) :
    pyStrip t = t ∧ c = (if t = "" then 0 else mkRat 9 10) := by
  unfold transcribe_audio at hstt
  split at hstt
  next e heq => simp at hstt
  next rawText heq =>
    simp only [Except.ok.injEq, Prod.mk.injEq] at hstt
    obtain ⟨ht, hc⟩ := hstt
    subst ht
    exact ⟨pyStrip_idem rawText, hc.symm⟩

/-- The silence threshold constant of the source, as a rational. -/
theorem mkRat_three_tenths : (mkRat 3 10 : ℚ) = 3/10 := by norm_num [mkRat]

/-- Claim C1: on every completed stop, the pipeline skips text generation
(no `assistant_text` events at all) and persists exactly the fixed fallback
reply if and only if the transcript is empty after stripping whitespace or
the confidence is strictly below 0.3; and the decision table of the silence
rule on the four inputs specified by the spec (confidences 0.0, 0.0, 0.9,
0.5). -/
theorem silence_policy (cb : Collab) (clock : Nat → ℚ) (k : Nat) (t0 : ℚ)
    (tid sid : String) (raw : List Nat) (t : String) (c : ℚ)
    (acts : List Act) (k' : Nat)
    (hstt : transcribe_audio cb raw = Except.ok (t, c))
    (hrun : processStop cb clock k t0 tid sid raw = (acts, k', none)) :
    (((sendsOf acts).filter isAssistantEv = [] ∧
      ∀ tr, lastCommit acts = some tr → tr.assistant_text = some fallbackMsg)
      ↔ (pyStrip t = "" ∨ c < 3/10)) ∧
    shouldFallback "" 0 = true ∧
    shouldFallback "   " 0 = true ∧
    shouldFallback "hello" (9/10) = false ∧
    shouldFallback "some words" (1/2) = false := by
  have hpt : pyStrip t = t := (transcribe_audio_stripped cb raw t c hstt).1
  refine ⟨?_, by decide, by decide, ?_, ?_⟩
  · rw [hpt, ← mkRat_three_tenths]
    obtain ⟨t2, c2, hstt2, hor⟩ :=
      processStop_ok cb clock k t0 tid sid raw acts k' hrun
    rw [hstt] at hstt2
    simp only [Except.ok.injEq, Prod.mk.injEq] at hstt2
    obtain ⟨ht2, hc2⟩ := hstt2
    subst ht2; subst hc2
    rcases hor with ⟨hcond, htts⟩ | ⟨hcond, content, hllm, htts⟩
    · obtain ⟨audio, htts2, hbr⟩ :=
        ttsPhase_ok cb clock (k + 1) t0 _ _ _ acts k' htts
      apply iff_of_true _ hcond
      rcases hbr with ⟨hch, hacts, hk⟩ | ⟨cc, rest, hch, hacts, hk⟩
      · subst hacts
        refine ⟨?_, ?_⟩
        · simp [sttActs, isAssistantEv]
        · intro tr htr
          rw [lastCommit_concat_commit] at htr
          simp only [Option.some.injEq] at htr
          rw [← htr]
      · subst hacts
        refine ⟨?_, ?_⟩
        · simp [sttActs, isAssistantEv, List.filter_map, Function.comp]
        · intro tr htr
          rw [lastCommit_concat_commit] at htr
          simp only [Option.some.injEq] at htr
          rw [← htr]
    · obtain ⟨audio, htts2, hbr⟩ :=
        ttsPhase_ok cb clock (k + 1) t0 _ _ _ acts k' htts
      apply iff_of_false _ hcond
      intro hcontra
      obtain ⟨hfilter, _⟩ := hcontra
      rcases hbr with ⟨hch, hacts, hk⟩ | ⟨cc, rest, hch, hacts, hk⟩ <;>
        subst hacts <;>
        simp [sttActs, llmActs, isAssistantEv, List.filter_map, Function.comp] at hfilter
  · rw [show shouldFallback "hello" (9/10)
        = (decide (pyStrip "hello" = "") || decide ((9/10 : ℚ) < mkRat 3 10)) from rfl]
    rw [mkRat_three_tenths]
    simp only [Bool.or_eq_false_iff, decide_eq_false_iff_not]
    exact ⟨by decide, by norm_num⟩
  · rw [show shouldFallback "some words" (1/2)
        = (decide (pyStrip "some words" = "") || decide ((1/2 : ℚ) < mkRat 3 10)) from rfl]
    rw [mkRat_three_tenths]
    simp only [Bool.or_eq_false_iff, decide_eq_false_iff_not]
    exact ⟨by decide, by norm_num⟩

/-- Witness for C1: a completed stop whose ASR hears only whitespace, so the
transcript strips to empty, the confidence is 0.0, and the fallback fires. -/
theorem silence_policy_witness :
    transcribe_audio cbSil [7] = Except.ok ("", 0) ∧
    processStop cbSil clockW 0 0 "t0" "s" [7]
      = ((processStop cbSil clockW 0 0 "t0" "s" [7]).1,
         (processStop cbSil clockW 0 0 "t0" "s" [7]).2.1, none) ∧
    ((((sendsOf (processStop cbSil clockW 0 0 "t0" "s" [7]).1).filter isAssistantEv = [] ∧
       ∀ tr, lastCommit (processStop cbSil clockW 0 0 "t0" "s" [7]).1 = some tr →
         tr.assistant_text = some fallbackMsg)
      ↔ (pyStrip "" = "" ∨ (0 : ℚ) < 3/10)) ∧
     shouldFallback "" 0 = true ∧
     shouldFallback "   " 0 = true ∧
     shouldFallback "hello" (9/10) = false ∧
     shouldFallback "some words" (1/2) = false) :=
  ⟨by decide, by decide,
   silence_policy cbSil clockW 0 0 "t0" "s" [7] "" 0
     ((processStop cbSil clockW 0 0 "t0" "s" [7]).1)
     ((processStop cbSil clockW 0 0 "t0" "s" [7]).2.1)
     (by decide) (by decide)⟩

@[simp]
theorem assistPartialTexts_nil : assistPartialTexts [] = [] := rfl

@[simp]
theorem assistPartialTexts_append (a b : List Ev) :
    assistPartialTexts (a ++ b) = assistPartialTexts a ++ assistPartialTexts b := by
  simp [assistPartialTexts]

@[simp]
theorem assistPartialTexts_cons_sttPartial (s : String) (l : List Ev) :
    assistPartialTexts (Ev.sttPartial s :: l) = assistPartialTexts l := rfl

@[simp]
theorem assistPartialTexts_cons_sttFinal (s : String) (c : ℚ) (ms : ℤ) (l : List Ev) :
    assistPartialTexts (Ev.sttFinal s c ms :: l) = assistPartialTexts l := rfl

@[simp]
theorem assistPartialTexts_cons_ttsDone (l : List Ev) :
    assistPartialTexts (Ev.ttsDone :: l) = assistPartialTexts l := rfl

@[simp]
theorem assistPartialTexts_cons_chunk (s : String) (l : List Ev) :
    assistPartialTexts (Ev.ttsAudioChunk s :: l) = assistPartialTexts l := rfl

@[simp]
theorem assistPartialTexts_cons_final (s : String) (ft : Option String) (l : List Ev) :
    assistPartialTexts (Ev.assistantText s true ft :: l) = assistPartialTexts l := rfl

@[simp]
theorem assistPartialTexts_cons_token (s : String) (ft : Option String) (l : List Ev) :
    assistPartialTexts (Ev.assistantText s false ft :: l) = s :: assistPartialTexts l := rfl

@[simp]
theorem assistPartialTexts_tokens (ws : List String) :
    assistPartialTexts (ws.map (fun w => Ev.assistantText w false none)) = ws := by
  induction ws with
  | nil => rfl
  | cons w t ih => rw [List.map_cons, assistPartialTexts_cons_token, ih]

@[simp]
theorem assistPartialTexts_chunks (cs : List (List Nat)) :
    assistPartialTexts (cs.map (fun c => Ev.ttsAudioChunk (String.mk (b64encode c)))) = [] := by
  induction cs with
  | nil => rfl
  | cons c t ih => rw [List.map_cons, assistPartialTexts_cons_chunk, ih]

@[simp]
theorem assistFinalFullTexts_nil : assistFinalFullTexts [] = [] := rfl

@[simp]
theorem assistFinalFullTexts_append (a b : List Ev) :
    assistFinalFullTexts (a ++ b) = assistFinalFullTexts a ++ assistFinalFullTexts b := by
  simp [assistFinalFullTexts]

@[simp]
theorem assistFinalFullTexts_cons_sttPartial (s : String) (l : List Ev) :
    assistFinalFullTexts (Ev.sttPartial s :: l) = assistFinalFullTexts l := rfl

@[simp]
theorem assistFinalFullTexts_cons_sttFinal (s : String) (c : ℚ) (ms : ℤ) (l : List Ev) :
    assistFinalFullTexts (Ev.sttFinal s c ms :: l) = assistFinalFullTexts l := rfl

@[simp]
theorem assistFinalFullTexts_cons_ttsDone (l : List Ev) :
    assistFinalFullTexts (Ev.ttsDone :: l) = assistFinalFullTexts l := rfl

@[simp]
theorem assistFinalFullTexts_cons_chunk (s : String) (l : List Ev) :
    assistFinalFullTexts (Ev.ttsAudioChunk s :: l) = assistFinalFullTexts l := rfl

@[simp]
theorem assistFinalFullTexts_cons_final (s : String) (ft : Option String) (l : List Ev) :
    assistFinalFullTexts (Ev.assistantText s true ft :: l) = ft :: assistFinalFullTexts l := rfl

@[simp]
theorem assistFinalFullTexts_cons_token (s : String) (ft : Option String) (l : List Ev) :
    assistFinalFullTexts (Ev.assistantText s false ft :: l) = assistFinalFullTexts l := rfl

@[simp]
theorem assistFinalFullTexts_tokens (ws : List String) :
    assistFinalFullTexts (ws.map (fun w => Ev.assistantText w false none)) = [] := by
  induction ws with
  | nil => rfl
  | cons w t ih => rw [List.map_cons, assistFinalFullTexts_cons_token, ih]

@[simp]
theorem assistFinalFullTexts_chunks (cs : List (List Nat)) :
    assistFinalFullTexts (cs.map (fun c => Ev.ttsAudioChunk (String.mk (b64encode c)))) = [] := by
  induction cs with
  | nil => rfl
  | cons c t ih => rw [List.map_cons, assistFinalFullTexts_cons_chunk, ih]

@[simp]
theorem chunkPayloads_nil : chunkPayloads [] = [] := rfl

@[simp]
theorem chunkPayloads_append (a b : List Ev) :
    chunkPayloads (a ++ b) = chunkPayloads a ++ chunkPayloads b := by
  simp [chunkPayloads]

@[simp]
theorem chunkPayloads_cons_sttPartial (s : String) (l : List Ev) :
    chunkPayloads (Ev.sttPartial s :: l) = chunkPayloads l := rfl

@[simp]
theorem chunkPayloads_cons_sttFinal (s : String) (c : ℚ) (ms : ℤ) (l : List Ev) :
    chunkPayloads (Ev.sttFinal s c ms :: l) = chunkPayloads l := rfl

@[simp]
theorem chunkPayloads_cons_ttsDone (l : List Ev) :
    chunkPayloads (Ev.ttsDone :: l) = chunkPayloads l := rfl

@[simp]
theorem chunkPayloads_cons_assist (s : String) (b : Bool) (ft : Option String) (l : List Ev) :
    chunkPayloads (Ev.assistantText s b ft :: l) = chunkPayloads l := rfl

@[simp]
theorem chunkPayloads_cons_chunk (s : String) (l : List Ev) :
    chunkPayloads (Ev.ttsAudioChunk s :: l) = s :: chunkPayloads l := rfl

@[simp]
theorem chunkPayloads_tokens (ws : List String) :
    chunkPayloads (ws.map (fun w => Ev.assistantText w false none)) = [] := by
  induction ws with
  | nil => rfl
  | cons w t ih => rw [List.map_cons, chunkPayloads_cons_assist, ih]

@[simp]
theorem chunkPayloads_chunks (cs : List (List Nat)) :
    chunkPayloads (cs.map (fun c => Ev.ttsAudioChunk (String.mk (b64encode c))))
      = cs.map (fun c => String.mk (b64encode c)) := by
  induction cs with
  | nil => rfl
  | cons c t ih => rw [List.map_cons, chunkPayloads_cons_chunk, ih, List.map_cons]

/-- The i-th streamed token is the i-th whitespace-separated word of the
completion, with a trailing space except on the last word. -/
theorem call_llm_streaming_chunks_getD (content : String) (i : Nat)
    (h : i < (pySplitWs (pyStrip content)).length) :
    (call_llm_streaming_chunks content).getD i ""
      = (pySplitWs (pyStrip content)).getD i ""
        ++ (if i + 1 < (pySplitWs (pyStrip content)).length then " " else "") := by
  unfold call_llm_streaming_chunks
  rw [List.getD_eq_getElem?_getD, List.getElem?_map, List.getElem?_range h]
  have hiff : (i < (pySplitWs (pyStrip content)).length - 1)
      = (i + 1 < (pySplitWs (pyStrip content)).length) := propext (by omega)
  simp [hiff]

/-- Claim C5: when generation runs, the orchestrator emits one non-final
`assistant_text` event per whitespace-separated word of the completion,
each carrying that word plus a trailing space except on the last, followed
by exactly one final `assistant_text` event whose `full_text` is the
accumulated reply; the concatenation of the streamed tokens equals that
full reply, which is also what is persisted as the turn's assistant text. -/
theorem llm_streaming (cb : Collab) (clock : Nat → ℚ) (k : Nat) (t0 : ℚ)
    (tid sid : String) (raw : List Nat) (t : String) (c : ℚ) (content : String)
    (acts : List Act) (k' : Nat)
    (hstt : transcribe_audio cb raw = Except.ok (t, c))
    (hnf : ¬(t = "" ∨ c < mkRat 3 10))
    (hllm : cb.llm t = Except.ok content)
    (hrun : processStop cb clock k t0 tid sid raw = (acts, k', none)) :
    assistPartialTexts (sendsOf acts) = call_llm_streaming_chunks content ∧
    (call_llm_streaming_chunks content).length
      = (pySplitWs (pyStrip content)).length ∧
    (∀ i, i < (pySplitWs (pyStrip content)).length →
      (call_llm_streaming_chunks content).getD i ""
        = (pySplitWs (pyStrip content)).getD i ""
          ++ (if i + 1 < (pySplitWs (pyStrip content)).length then " " else "")) ∧
    assistFinalFullTexts (sendsOf acts)
      = [some (String.join (call_llm_streaming_chunks content))] ∧
    (∀ tr, lastCommit acts = some tr →
      tr.assistant_text = some (String.join (call_llm_streaming_chunks content))) := by
  obtain ⟨t2, c2, hstt2, hor⟩ :=
    processStop_ok cb clock k t0 tid sid raw acts k' hrun
  rw [hstt] at hstt2
  simp only [Except.ok.injEq, Prod.mk.injEq] at hstt2
  obtain ⟨ht2, hc2⟩ := hstt2
  subst ht2; subst hc2
  rcases hor with ⟨hcond, _⟩ | ⟨_, content2, hllm2, htts⟩
  · exact absurd hcond hnf
  · rw [hllm] at hllm2
    simp only [Except.ok.injEq] at hllm2
    subst hllm2
    obtain ⟨audio, htts2, hbr⟩ :=
      ttsPhase_ok cb clock (k + 1) t0 _ _ _ acts k' htts
    have hjoin : String.join (call_llm_streaming_chunks content)
        = (call_llm_streaming_chunks content).foldl (fun acc w => acc ++ w) "" := rfl
    refine ⟨?_, by simp [call_llm_streaming_chunks], ?_, ?_, ?_⟩
    · rcases hbr with ⟨hch, hacts, hk⟩ | ⟨cc, rest, hch, hacts, hk⟩ <;>
        subst hacts <;>
        simp [sttActs, llmActs, hjoin]
    · intro i hi
      exact call_llm_streaming_chunks_getD content i hi
    · rcases hbr with ⟨hch, hacts, hk⟩ | ⟨cc, rest, hch, hacts, hk⟩ <;>
        subst hacts <;>
        simp [sttActs, llmActs, hjoin]
    · intro tr htr
      rcases hbr with ⟨hch, hacts, hk⟩ | ⟨cc, rest, hch, hacts, hk⟩ <;>
        subst hacts <;>
        rw [lastCommit_concat_commit] at htr <;>
        simp only [Option.some.injEq] at htr <;>
        rw [← htr] <;>
        simp [hjoin]

/-- Witness for C5: a completed stop on which generation runs; the LLM
completion "Hi there friend" is streamed as three word tokens. -/
theorem llm_streaming_witness :
    transcribe_audio cbW [7] = Except.ok ("hello there", mkRat 9 10) ∧
    ¬(("hello there" : String) = "" ∨ mkRat 9 10 < mkRat 3 10) ∧
    cbW.llm "hello there" = Except.ok "Hi there friend" ∧
    processStop cbW clockW 0 0 "t0" "s" [7]
      = ((processStop cbW clockW 0 0 "t0" "s" [7]).1,
         (processStop cbW clockW 0 0 "t0" "s" [7]).2.1, none) ∧
    (assistPartialTexts (sendsOf (processStop cbW clockW 0 0 "t0" "s" [7]).1)
        = call_llm_streaming_chunks "Hi there friend" ∧
     (call_llm_streaming_chunks "Hi there friend").length
        = (pySplitWs (pyStrip "Hi there friend")).length ∧
     (∀ i, i < (pySplitWs (pyStrip "Hi there friend")).length →
       (call_llm_streaming_chunks "Hi there friend").getD i ""
         = (pySplitWs (pyStrip "Hi there friend")).getD i ""
           ++ (if i + 1 < (pySplitWs (pyStrip "Hi there friend")).length then " " else "")) ∧
     assistFinalFullTexts (sendsOf (processStop cbW clockW 0 0 "t0" "s" [7]).1)
        = [some (String.join (call_llm_streaming_chunks "Hi there friend"))] ∧
     (∀ tr, lastCommit (processStop cbW clockW 0 0 "t0" "s" [7]).1 = some tr →
       tr.assistant_text = some (String.join (call_llm_streaming_chunks "Hi there friend")))) :=
  ⟨by decide, by decide, rfl, by decide,
   llm_streaming cbW clockW 0 0 "t0" "s" [7] "hello there" (mkRat 9 10) "Hi there friend"
     ((processStop cbW clockW 0 0 "t0" "s" [7]).1)
     ((processStop cbW clockW 0 0 "t0" "s" [7]).2.1)
     (by decide) (by decide) rfl (by decide)⟩

/-- The number of audio chunks is the ceiling of n / 8192. -/
theorem chunk_audio_length (audio : List Nat) :
    (chunk_audio audio).length = (audio.length + 8191) / 8192 := by
  simp [chunk_audio]

/-- Concatenating the chunks in order reconstructs the audio. -/
theorem chunk_audio_flatten (audio : List Nat) :
    (chunk_audio audio).flatten = audio := by
  suffices h : ∀ (n : Nat) (l : List Nat), (l.length + 8191) / 8192 = n →
      ((List.range n).map (fun i => (l.drop (8192 * i)).take 8192)).flatten = l by
    exact h _ audio rfl
  intro n
  induction n with
  | zero =>
    intro l hl
    have : l.length = 0 := by omega
    rw [List.length_eq_zero] at this
    subst this
    rfl
  | succ m ih =>
    intro l hl
    rw [List.range_succ_eq_map, List.map_cons, List.flatten_cons, List.map_map]
    have hdrop : ((fun i => (l.drop (8192 * i)).take 8192) ∘ Nat.succ)
        = (fun i => ((l.drop 8192).drop (8192 * i)).take 8192) := by
      funext i
      simp only [Function.comp]
      rw [List.drop_drop]
      congr 2
      omega
    rw [hdrop]
    rw [ih (l.drop 8192) (by rw [List.length_drop]; omega)]
    simp

/-- Every chunk holds at most 8192 bytes. -/
theorem chunk_audio_le (audio : List Nat) (cl : List Nat)
    (h : cl ∈ chunk_audio audio) : cl.length ≤ 8192 := by
  unfold chunk_audio at h
  rw [List.mem_map] at h
  obtain ⟨i, _, hcl⟩ := h
  rw [← hcl, List.length_take]
  omega

/-- Every chunk except possibly the last holds exactly 8192 bytes. -/
theorem chunk_audio_getD (audio : List Nat) (i : Nat)
    (h : i + 1 < (chunk_audio audio).length) :
    ((chunk_audio audio).getD i []).length = 8192 := by
  rw [chunk_audio_length] at h
  unfold chunk_audio
  have hi : i < (audio.length + 8191) / 8192 := by omega
  rw [List.getD_eq_getElem?_getD, List.getElem?_map, List.getElem?_range hi]
  have hmul : (i + 2) * 8192 ≤ audio.length + 8191 :=
    (Nat.le_div_iff_mul_le (by norm_num : 0 < 8192)).mp
      (by omega : i + 2 ≤ (audio.length + 8191) / 8192)
  simp only [Option.map_some', Option.getD_some]
  rw [List.length_take, List.length_drop]
  omega

/-- Members of a chunk are bytes of the original audio. -/
theorem chunk_audio_mem_mem (audio : List Nat) (cl : List Nat) (x : Nat)
    (hcl : cl ∈ chunk_audio audio) (hx : x ∈ cl) : x ∈ audio := by
  unfold chunk_audio at hcl
  rw [List.mem_map] at hcl
  obtain ⟨i, _, h⟩ := hcl
  rw [← h] at hx
  exact List.drop_subset _ _ (List.take_subset _ _ hx)

/-- The base64 alphabet character of a 6-bit value decodes back to it. -/
theorem b64CharVal_b64Char : ∀ k, k < 64 → b64CharVal (b64Char k) = k := by decide

/-- Alphabet characters are never the padding character. -/
theorem b64Char_ne_pad : ∀ k, k < 64 → (b64Char k != '=') = true := by decide

/-- Base64 decoding inverts base64 encoding on byte lists. -/
theorem b64_roundtrip : ∀ l : List Nat, (∀ x ∈ l, x < 256) → b64decode (b64encode l) = l
  | [], _ => by simp [b64encode, b64decode, b64decodeVals]
  | [a], h => by
    have ha : a < 256 := h a (by simp)
    have h1 : a / 4 < 64 := by omega
    have h2 : a % 4 * 16 < 64 := by omega
    show b64decodeVals
        (([b64Char (a / 4), b64Char (a % 4 * 16), '=', '='].filter (fun c => c != '=')).map
          b64CharVal) = [a]
    rw [show List.filter (fun c => c != '=')
          [b64Char (a / 4), b64Char (a % 4 * 16), '=', '=']
        = [b64Char (a / 4), b64Char (a % 4 * 16)] from by
      simp [List.filter_cons, b64Char_ne_pad _ h1, b64Char_ne_pad _ h2]]
    rw [List.map_cons, List.map_cons, List.map_nil,
        b64CharVal_b64Char _ h1, b64CharVal_b64Char _ h2]
    show [a / 4 * 4 + a % 4 * 16 / 16] = [a]
    have e1 : a / 4 * 4 + a % 4 * 16 / 16 = a := by omega
    rw [e1]
  | [a, b], h => by
    have ha : a < 256 := h a (by simp)
    have hb : b < 256 := h b (by simp)
    have h1 : a / 4 < 64 := by omega
    have h2 : a % 4 * 16 + b / 16 < 64 := by omega
    have h3 : b % 16 * 4 < 64 := by omega
    show b64decodeVals
        (([b64Char (a / 4), b64Char (a % 4 * 16 + b / 16), b64Char (b % 16 * 4), '='].filter
            (fun c => c != '=')).map b64CharVal) = [a, b]
    rw [show List.filter (fun c => c != '=')
          [b64Char (a / 4), b64Char (a % 4 * 16 + b / 16), b64Char (b % 16 * 4), '=']
        = [b64Char (a / 4), b64Char (a % 4 * 16 + b / 16), b64Char (b % 16 * 4)] from by
      simp [List.filter_cons, b64Char_ne_pad _ h1, b64Char_ne_pad _ h2, b64Char_ne_pad _ h3]]
    rw [List.map_cons, List.map_cons, List.map_cons, List.map_nil,
        b64CharVal_b64Char _ h1, b64CharVal_b64Char _ h2, b64CharVal_b64Char _ h3]
    show [a / 4 * 4 + (a % 4 * 16 + b / 16) / 16,
          (a % 4 * 16 + b / 16) % 16 * 16 + b % 16 * 4 / 4] = [a, b]
    have e1 : a / 4 * 4 + (a % 4 * 16 + b / 16) / 16 = a := by omega
    have e2 : (a % 4 * 16 + b / 16) % 16 * 16 + b % 16 * 4 / 4 = b := by omega
    rw [e1, e2]
  | a :: b :: c :: rest, h => by
    have ha : a < 256 := h a (by simp)
    have hb : b < 256 := h b (by simp)
    have hc : c < 256 := h c (by simp)
    have h1 : a / 4 < 64 := by omega
    have h2 : a % 4 * 16 + b / 16 < 64 := by omega
    have h3 : b % 16 * 4 + c / 64 < 64 := by omega
    have h4 : c % 64 < 64 := by omega
    have ih : b64decode (b64encode rest) = rest :=
      b64_roundtrip rest (fun x hx => h x (by simp [hx]))
    have e1 : a / 4 * 4 + (a % 4 * 16 + b / 16) / 16 = a := by omega
    have e2 : (a % 4 * 16 + b / 16) % 16 * 16 + (b % 16 * 4 + c / 64) / 4 = b := by omega
    have e3 : (b % 16 * 4 + c / 64) % 4 * 64 + c % 64 = c := by omega
    show b64decodeVals
        (((b64Char (a / 4) :: b64Char (a % 4 * 16 + b / 16) ::
            b64Char (b % 16 * 4 + c / 64) :: b64Char (c % 64) :: b64encode rest).filter
            (fun ch => ch != '=')).map b64CharVal) = a :: b :: c :: rest
    rw [show List.filter (fun ch => ch != '=')
          (b64Char (a / 4) :: b64Char (a % 4 * 16 + b / 16) ::
           b64Char (b % 16 * 4 + c / 64) :: b64Char (c % 64) :: b64encode rest)
        = b64Char (a / 4) :: b64Char (a % 4 * 16 + b / 16) ::
          b64Char (b % 16 * 4 + c / 64) :: b64Char (c % 64) ::
          List.filter (fun ch => ch != '=') (b64encode rest) from by
      simp [List.filter_cons, b64Char_ne_pad _ h1, b64Char_ne_pad _ h2,
            b64Char_ne_pad _ h3, b64Char_ne_pad _ h4]]
    rw [List.map_cons, List.map_cons, List.map_cons, List.map_cons,
        b64CharVal_b64Char _ h1, b64CharVal_b64Char _ h2,
        b64CharVal_b64Char _ h3, b64CharVal_b64Char _ h4]
    unfold b64decode at ih
    cases hv : ((b64encode rest).filter (fun ch => ch != '=')).map b64CharVal with
    | nil =>
      rw [hv] at ih
      show b64decodeVals [a / 4, a % 4 * 16 + b / 16, b % 16 * 4 + c / 64, c % 64]
          = a :: b :: c :: rest
      rw [show b64decodeVals [a / 4, a % 4 * 16 + b / 16, b % 16 * 4 + c / 64, c % 64]
          = [a / 4 * 4 + (a % 4 * 16 + b / 16) / 16,
             (a % 4 * 16 + b / 16) % 16 * 16 + (b % 16 * 4 + c / 64) / 4,
             (b % 16 * 4 + c / 64) % 4 * 64 + c % 64] from rfl]
      rw [e1, e2, e3, ← ih]
      rfl
    | cons v vs =>
      rw [hv] at ih
      show b64decodeVals (a / 4 :: (a % 4 * 16 + b / 16) ::
          (b % 16 * 4 + c / 64) :: c % 64 :: v :: vs) = a :: b :: c :: rest
      rw [show b64decodeVals (a / 4 :: (a % 4 * 16 + b / 16) ::
            (b % 16 * 4 + c / 64) :: c % 64 :: v :: vs)
          = (a / 4 * 4 + (a % 4 * 16 + b / 16) / 16) ::
            ((a % 4 * 16 + b / 16) % 16 * 16 + (b % 16 * 4 + c / 64) / 4) ::
            ((b % 16 * 4 + c / 64) % 4 * 64 + c % 64) :: b64decodeVals (v :: vs) from rfl]
      rw [e1, e2, e3, ih]

/-- There are zero chunks exactly for empty audio. -/
theorem chunk_audio_eq_nil_iff (audio : List Nat) :
    chunk_audio audio = [] ↔ audio = [] := by
  constructor
  · intro h
    unfold chunk_audio at h
    simp only [List.map_eq_nil_iff, List.range_eq_nil] at h
    have : audio.length = 0 := by omega
    exact List.length_eq_zero.mp this
  · intro h
    subst h
    rfl

/-- Claim C6: for reply audio of n bytes the TTS stage emits exactly
⌈n / 8192⌉ base64 chunk events (the ceiling is (n + 8191) / 8192), each
window at most 8192 bytes and all but the last exactly 8192; decoding and
concatenating the emitted payloads in order reconstructs the audio;
time-to-first-audio is recorded once, with the first-chunk clock reading,
and its commit precedes every chunk event; and one terminal `tts_done`
event follows the last chunk. -/
theorem tts_chunking (cb : Collab) (clock : Nat → ℚ) (k : Nat) (t0 : ℚ)
    (turn : TurnRec) (reply : String) (audio : List Nat) (acts : List Act) (k' : Nat)
    (htts : cb.tts reply = Except.ok audio)
    (hbytes : ∀ x ∈ audio, x < 256)
    (httfa : turn.time_to_first_audio = none)
    (hrun : ttsPhase cb clock k t0 turn [] reply = (acts, k', none)) :
    sendsOf acts
      = (chunk_audio audio).map (fun cl => Ev.ttsAudioChunk (String.mk (b64encode cl)))
        ++ [Ev.ttsDone] ∧
    (chunk_audio audio).length = (audio.length + 8191) / 8192 ∧
    (∀ cl ∈ chunk_audio audio, cl.length ≤ 8192) ∧
    (∀ i, i + 1 < (chunk_audio audio).length →
      ((chunk_audio audio).getD i []).length = 8192) ∧
    ((chunkPayloads (sendsOf acts)).map (fun s => b64decode s.data)).flatten = audio ∧
    (audio ≠ [] → acts.head? = some (Act.commit
        { turn with time_to_first_audio := some (ratSub (clock k) t0) })) ∧
    (∀ tr ∈ commitsOf acts, tr.time_to_first_audio = none ∨
        tr.time_to_first_audio = some (ratSub (clock k) t0)) ∧
    (audio = [] → ∀ tr ∈ commitsOf acts, tr.time_to_first_audio = none) := by
  obtain ⟨audio2, htts2, hbr⟩ := ttsPhase_ok cb clock k t0 turn [] reply acts k' hrun
  rw [htts] at htts2
  simp only [Except.ok.injEq] at htts2
  subst htts2
  have hsends : sendsOf acts
      = (chunk_audio audio).map (fun cl => Ev.ttsAudioChunk (String.mk (b64encode cl)))
        ++ [Ev.ttsDone] := by
    rcases hbr with ⟨hch, hacts, _⟩ | ⟨cc, rest, hch, hacts, _⟩ <;>
      subst hacts <;> rw [hch] <;> simp
  refine ⟨hsends, chunk_audio_length audio, chunk_audio_le audio,
    chunk_audio_getD audio, ?_, ?_, ?_, ?_⟩
  · rw [hsends]
    simp only [chunkPayloads_append, chunkPayloads_cons_ttsDone, chunkPayloads_nil,
      List.append_nil]
    rw [chunkPayloads_chunks, List.map_map]
    have hmap : (chunk_audio audio).map ((fun s => b64decode s.data)
          ∘ (fun c => String.mk (b64encode c)))
        = (chunk_audio audio).map id := by
      apply List.map_congr_left
      intro cl hcl
      show b64decode (b64encode cl) = cl
      exact b64_roundtrip cl (fun x hx => hbytes x (chunk_audio_mem_mem audio cl x hcl hx))
    rw [hmap, List.map_id]
    exact chunk_audio_flatten audio
  · intro hne
    rcases hbr with ⟨hch, hacts, _⟩ | ⟨cc, rest, hch, hacts, _⟩
    · exact absurd ((chunk_audio_eq_nil_iff audio).mp hch) hne
    · subst hacts
      rfl
  · intro tr htr
    rcases hbr with ⟨hch, hacts, _⟩ | ⟨cc, rest, hch, hacts, _⟩ <;> subst hacts <;>
      simp only [List.nil_append, commitsOf_append, commitsOf_cons_commit,
        commitsOf_cons_send, commitsOf_map_send, commitsOf_nil, List.append_nil,
        List.mem_append, List.mem_cons, List.not_mem_nil, or_false] at htr
    · subst htr
      exact Or.inl httfa
    · rcases htr with rfl | rfl
      · exact Or.inr rfl
      · exact Or.inr rfl
  · intro hnil tr htr
    subst hnil
    rcases hbr with ⟨hch, hacts, _⟩ | ⟨cc, rest, hch, hacts, _⟩
    · subst hacts
      simp only [List.nil_append, commitsOf_append, commitsOf_cons_commit,
        commitsOf_cons_send, commitsOf_map_send, commitsOf_nil, List.append_nil,
        List.mem_append, List.mem_cons, List.not_mem_nil, or_false] at htr
      subst htr
      exact httfa
    · rw [show chunk_audio [] = [] from rfl] at hch
      simp at hch

/-- Witness for C6: the TTS stage run on a concrete three-byte synthesis
result, yielding one chunk event and `tts_done`. -/
theorem tts_chunking_witness :
    cbW.tts "r" = Except.ok [1, 2, 3] ∧
    (∀ x ∈ [1, 2, 3], x < 256) ∧
    turnW.time_to_first_audio = none ∧
    ttsPhase cbW clockW 0 0 turnW [] "r"
      = ((ttsPhase cbW clockW 0 0 turnW [] "r").1,
         (ttsPhase cbW clockW 0 0 turnW [] "r").2.1, none) ∧
    (sendsOf (ttsPhase cbW clockW 0 0 turnW [] "r").1
       = (chunk_audio [1, 2, 3]).map
           (fun cl => Ev.ttsAudioChunk (String.mk (b64encode cl))) ++ [Ev.ttsDone] ∧
     (chunk_audio [1, 2, 3]).length = (([1, 2, 3] : List Nat).length + 8191) / 8192 ∧
     (∀ cl ∈ chunk_audio [1, 2, 3], cl.length ≤ 8192) ∧
     (∀ i, i + 1 < (chunk_audio [1, 2, 3]).length →
       ((chunk_audio [1, 2, 3]).getD i []).length = 8192) ∧
     ((chunkPayloads (sendsOf (ttsPhase cbW clockW 0 0 turnW [] "r").1)).map
         (fun s => b64decode s.data)).flatten = [1, 2, 3] ∧
     (([1, 2, 3] : List Nat) ≠ [] → (ttsPhase cbW clockW 0 0 turnW [] "r").1.head?
        = some (Act.commit
            { turnW with time_to_first_audio := some (ratSub (clockW 0) 0) })) ∧
     (∀ tr ∈ commitsOf (ttsPhase cbW clockW 0 0 turnW [] "r").1,
        tr.time_to_first_audio = none ∨
        tr.time_to_first_audio = some (ratSub (clockW 0) 0)) ∧
     (([1, 2, 3] : List Nat) = [] →
       ∀ tr ∈ commitsOf (ttsPhase cbW clockW 0 0 turnW [] "r").1,
         tr.time_to_first_audio = none)) :=
  ⟨rfl, by decide, rfl, by decide,
   tts_chunking cbW clockW 0 0 turnW "r" [1, 2, 3]
     ((ttsPhase cbW clockW 0 0 turnW [] "r").1)
     ((ttsPhase cbW clockW 0 0 turnW [] "r").2.1)
     rfl (by decide) rfl (by decide)⟩

/-- The computable subtraction agrees with rational subtraction. -/
theorem ratSub_eq (a b : ℚ) : ratSub a b = a - b := by
  unfold ratSub
  rw [Rat.mkRat_eq_div]
  push_cast
  have ha : (a.den : ℚ) ≠ 0 := Nat.cast_ne_zero.mpr (Nat.pos_iff_ne_zero.mp a.den_pos)
  have hb : (b.den : ℚ) ≠ 0 := Nat.cast_ne_zero.mpr (Nat.pos_iff_ne_zero.mp b.den_pos)
  conv_rhs => rw [← Rat.num_div_den a, ← Rat.num_div_den b]
  field_simp
  ring

/-- The computable multiplication agrees with rational multiplication. -/
theorem ratMul_eq (a b : ℚ) : ratMul a b = a * b := by
  unfold ratMul
  rw [Rat.mkRat_eq_div]
  push_cast
  have ha : (a.den : ℚ) ≠ 0 := Nat.cast_ne_zero.mpr (Nat.pos_iff_ne_zero.mp a.den_pos)
  have hb : (b.den : ℚ) ≠ 0 := Nat.cast_ne_zero.mpr (Nat.pos_iff_ne_zero.mp b.den_pos)
  conv_rhs => rw [← Rat.num_div_den a, ← Rat.num_div_den b]
  field_simp

/-- Claim C7: on every completed turn whose two latency fields are both set,
0 ≤ time_to_final_transcript ≤ time_to_first_audio, given that the clock
readings are monotone in the reading index and the turn-start time does not
exceed the reading taken at the stop. -/
theorem latency_monotonic (cb : Collab) (clock : Nat → ℚ) (k : Nat) (t0 : ℚ)
    (tid sid : String) (raw : List Nat) (acts : List Act) (k' : Nat)
    (tr : TurnRec) (a b : ℚ)
    (hmono : ∀ i j : Nat, i ≤ j → clock i ≤ clock j)
    (ht0 : t0 ≤ clock k)
    (hrun : processStop cb clock k t0 tid sid raw = (acts, k', none))
    (hlast : lastCommit acts = some tr)
    (ha : tr.time_to_final_transcript = some a)
    (hb : tr.time_to_first_audio = some b) :
    0 ≤ a ∧ a ≤ b := by
  obtain ⟨t, c, hstt, hor⟩ := processStop_ok cb clock k t0 tid sid raw acts k' hrun
  have key : a = ratSub (clock k) t0 ∧ b = ratSub (clock (k + 1)) t0 := by
    rcases hor with ⟨_, htts⟩ | ⟨_, content, _, htts⟩ <;>
    · obtain ⟨audio, _, hbr⟩ := ttsPhase_ok cb clock (k + 1) t0 _ _ _ acts k' htts
      rcases hbr with ⟨hch, hacts, _⟩ | ⟨cc, rest, hch, hacts, _⟩ <;> subst hacts <;>
        rw [lastCommit_concat_commit] at hlast <;>
        simp only [Option.some.injEq] at hlast <;>
        rw [← hlast] at ha hb
      · simp [sttTurn] at hb
      · simp only [sttTurn] at ha hb
        simp only [Option.some.injEq] at ha hb
        exact ⟨ha.symm, hb.symm⟩
  obtain ⟨hae, hbe⟩ := key
  subst hae; subst hbe
  rw [ratSub_eq, ratSub_eq]
  constructor
  · linarith
  · have := hmono k (k + 1) (by omega)
    linarith

/-- The concrete clock is monotone. -/
theorem clockW_mono : ∀ i j : Nat, i ≤ j → clockW i ≤ clockW j := by
  intro i j hij
  unfold clockW
  rw [Rat.mkRat_one, Rat.mkRat_one]
  exact_mod_cast hij

/-- Witness for C7: the completed turn of a concrete non-silent stop; its
transcript latency is 1 tick and its first-audio latency 2 ticks. -/
theorem latency_monotonic_witness :
    (∀ i j : Nat, i ≤ j → clockW i ≤ clockW j) ∧
    ((0 : ℚ) ≤ clockW 0) ∧
    processStop cbW clockW 0 0 "t0" "s" [7]
      = ((processStop cbW clockW 0 0 "t0" "s" [7]).1,
         (processStop cbW clockW 0 0 "t0" "s" [7]).2.1, none) ∧
    lastCommit (processStop cbW clockW 0 0 "t0" "s" [7]).1
      = some ((lastCommit (processStop cbW clockW 0 0 "t0" "s" [7]).1).getD turnW) ∧
    ((lastCommit (processStop cbW clockW 0 0 "t0" "s" [7]).1).getD turnW).time_to_final_transcript
      = some (ratSub (clockW 0) 0) ∧
    ((lastCommit (processStop cbW clockW 0 0 "t0" "s" [7]).1).getD turnW).time_to_first_audio
      = some (ratSub (clockW 1) 0) ∧
    (0 ≤ ratSub (clockW 0) 0 ∧ ratSub (clockW 0) 0 ≤ ratSub (clockW 1) 0) :=
  ⟨clockW_mono, by decide, by decide, by decide, by decide, by decide,
   latency_monotonic cbW clockW 0 0 "t0" "s" [7]
     ((processStop cbW clockW 0 0 "t0" "s" [7]).1)
     ((processStop cbW clockW 0 0 "t0" "s" [7]).2.1)
     ((lastCommit (processStop cbW clockW 0 0 "t0" "s" [7]).1).getD turnW)
     (ratSub (clockW 0) 0) (ratSub (clockW 1) 0)
     clockW_mono (by decide) (by decide) (by decide) (by decide) (by decide)⟩

/-- Counterexample to C3 as stated: with a transcription collaborator that
raises, the message loop does not keep running.  On a trace holding two
complete turns, the exception of the first turn terminates the run: only
one `turn_started` event is ever emitted (the second "start" is never
processed), the loop ends with an uncaught exception, and the finally
block marks the call ended. -/
theorem collaborator_failure_counterexample :
    (run cbFail clockW tidsW "s"
      [InMsg.start, InMsg.audio [1], InMsg.stop,
       InMsg.start, InMsg.audio [2], InMsg.stop, InMsg.endCall]).2.2
      = Termination.exception "boom" ∧
    ((sendsOf (run cbFail clockW tidsW "s"
      [InMsg.start, InMsg.audio [1], InMsg.stop,
       InMsg.start, InMsg.audio [2], InMsg.stop, InMsg.endCall]).2.1).filter
        isTraceStartedEv).length = 1 ∧
    (run cbFail clockW tidsW "s"
      [InMsg.start, InMsg.audio [1], InMsg.stop,
       InMsg.start, InMsg.audio [2], InMsg.stop, InMsg.endCall]).1.status
      = "ended" := by
  decide

/-- Claim C3 as amended: a collaborator exception is not retried and is not
caught — it propagates out of the message loop, so the remaining messages
are never processed and later turns on the same connection are impossible;
the connection is still not left hung: the partial turn data committed
before the failure remains in the database, and the finally block marks the
call ended.  (The claim that the loop keeps running and later turns remain
possible is refuted by the counterexample.) -/
theorem collaborator_failure_amended (cb : Collab) (clock : Nat → ℚ)
    (tids : Nat → String) (sid : String) :
    (∀ (st : ConnState) (m : InMsg) (ms : List InMsg) (st' : ConnState)
       (acts : List Act) (e : String),
      step cb clock tids sid st m = StepOut.exn st' acts e →
      runAux cb clock tids sid (m :: ms) st = (st', acts, Termination.exception e)) ∧
    (∀ (msgs : List InMsg) (e : String),
      (run cb clock tids sid msgs).2.2 = Termination.exception e →
      (run cb clock tids sid msgs).1.status = "ended") ∧
    (∀ (st : ConnState) (t0 : ℚ) (e : String),
      st.audio_buffer ≠ [] → st.turn_start_time = some t0 →
      cb.asr st.audio_buffer = Except.error e →
      step cb clock tids sid st InMsg.stop
        = StepOut.exn
          { st with audio_buffer := [],
                    turns := st.turns ++
                      [{ id := st.current_turn_id.getD "", session_id := sid,
                         started_at := t0 }] }
          [Act.commit { id := st.current_turn_id.getD "", session_id := sid,
                        started_at := t0 },
           Act.send (Ev.sttPartial "...")] e) := by
  refine ⟨?_, ?_, ?_⟩
  · intro st m ms st' acts e h
    simp [runAux, h]
  · intro msgs e _
    rfl
  · intro st t0 e hb ht hasr
    simp only [step, hb, if_neg (by simpa using hb), ht]
    simp [processStop, transcribe_audio, hasr, lastCommit, commitsOf]

/-- Witness for the amended C3: the exception step of the counterexample
run, applied through the amended theorem. -/
theorem collaborator_failure_amended_witness :
    (cbFail.asr stRec.audio_buffer = Except.error "boom" ∧
     stRec.audio_buffer ≠ [] ∧ stRec.turn_start_time = some (clockW 0)) ∧
    step cbFail clockW tidsW "s" stRec InMsg.stop
      = StepOut.exn stRecFailed
        [Act.commit { id := "t0", session_id := "s", started_at := clockW 0 },
         Act.send (Ev.sttPartial "...")] "boom" ∧
    runAux cbFail clockW tidsW "s" [InMsg.stop, InMsg.start] stRec
      = (stRecFailed,
         [Act.commit { id := "t0", session_id := "s", started_at := clockW 0 },
          Act.send (Ev.sttPartial "...")], Termination.exception "boom") ∧
    (run cbFail clockW tidsW "s" [InMsg.start, InMsg.audio [1], InMsg.stop]).1.status
      = "ended" :=
  ⟨⟨rfl, by decide, rfl⟩,
   by decide,
   (collaborator_failure_amended cbFail clockW tidsW "s").1
     stRec InMsg.stop [InMsg.start] stRecFailed
     [Act.commit { id := "t0", session_id := "s", started_at := clockW 0 },
      Act.send (Ev.sttPartial "...")] "boom" (by decide),
   (collaborator_failure_amended cbFail clockW tidsW "s").2.1
     [InMsg.start, InMsg.audio [1], InMsg.stop] "boom" (by decide)⟩

/-- Counterexample to C4 as stated: a turn that completes successfully
through the silence-fallback branch emits no terminal `assistant_text`
event at all (the reply-final event is inside the generation branch), so
the claimed "one terminal reply event with is_final=true" for every
successfully processed turn is false. -/
theorem event_order_counterexample :
    (run cbSil clockW tidsW "s" [InMsg.start, InMsg.audio [9], InMsg.stop]).2.2
      = Termination.normal ∧
    ((run cbSil clockW tidsW "s"
        [InMsg.start, InMsg.audio [9], InMsg.stop]).1.turns.map
      (fun t => t.ended_at.isSome)) = [true] ∧
    ((sendsOf (run cbSil clockW tidsW "s"
        [InMsg.start, InMsg.audio [9], InMsg.stop]).2.1).filter
      isFinalAssistantEv).length = 0 := by
  decide

/-- The per-turn event trace of a completed stop is stage-sorted:
`stt_partial` (stage 1), `stt_final` (2), assistant events (3), audio
chunks (4), `tts_done` (5). -/
theorem pairwise_stage_structure (t : String) (c : ℚ) (ms : ℤ)
    (assistBlock chunkEvs : List Ev)
    (hA : ∀ e ∈ assistBlock, stageOf e = 3)
    (hC : ∀ e ∈ chunkEvs, stageOf e = 4) :
    (Ev.sttPartial "..." :: Ev.sttFinal t c ms ::
      (assistBlock ++ chunkEvs ++ [Ev.ttsDone])).Pairwise
      (fun e1 e2 => stageOf e1 ≤ stageOf e2) := by
  have hmem : ∀ e ∈ assistBlock ++ chunkEvs ++ [Ev.ttsDone], 3 ≤ stageOf e := by
    intro e he
    rcases List.mem_append.mp he with h | h
    · rcases List.mem_append.mp h with h | h
      · rw [hA e h]
      · rw [hC e h]
        omega
    · simp only [List.mem_singleton] at h
      subst h
      show (3 : Nat) ≤ 5
      omega
  refine List.pairwise_cons.mpr ⟨?_, List.pairwise_cons.mpr ⟨?_, ?_⟩⟩
  · intro b hb
    rcases List.mem_cons.mp hb with rfl | hb
    · show (1 : Nat) ≤ 2
      omega
    · have := hmem b hb
      show (1 : Nat) ≤ stageOf b
      omega
  · intro b hb
    have := hmem b hb
    show (2 : Nat) ≤ stageOf b
    omega
  · refine List.pairwise_append.mpr ⟨List.pairwise_append.mpr ⟨?_, ?_, ?_⟩, ?_, ?_⟩
    · exact List.pairwise_of_forall_mem_list
        (fun a ha b hb => by rw [hA a ha, hA b hb])
    · exact List.pairwise_of_forall_mem_list
        (fun a ha b hb => by rw [hC a ha, hC b hb])
    · intro a ha b hb
      rw [hA a ha, hC b hb]
      omega
    · simp
    · intro a ha b hb
      simp only [List.mem_singleton] at hb
      subst hb
      show stageOf a ≤ 5
      rcases List.mem_append.mp ha with h | h
      · rw [hA a h]
        omega
      · rw [hC a h]
        omega

/-- Claim C4 as amended: for every completed stop, the events of the turn
are delivered in exactly the order stt_partial, stt_final, assistant
events, audio chunks, tts_done — with the assistant block consisting of the
streamed tokens followed by one terminal is_final event exactly when
generation ran, and empty (no terminal reply event) on the fallback branch;
stages never go backwards; and the loop processes one message to
completion before the next, so traces of different turns never
interleave. -/
theorem event_order_amended :
    (∀ (cb : Collab) (clock : Nat → ℚ) (k : Nat) (t0 : ℚ) (tid sid : String)
       (raw : List Nat) (acts : List Act) (k' : Nat),
      processStop cb clock k t0 tid sid raw = (acts, k', none) →
      ∃ (t : String) (c : ℚ) (ms : ℤ) (assistBlock : List Ev)
        (chunks : List (List Nat)),
        transcribe_audio cb raw = Except.ok (t, c) ∧
        sendsOf acts = Ev.sttPartial "..." :: Ev.sttFinal t c ms ::
          (assistBlock
            ++ chunks.map (fun cl => Ev.ttsAudioChunk (String.mk (b64encode cl)))
            ++ [Ev.ttsDone]) ∧
        ((t = "" ∨ c < mkRat 3 10) → assistBlock = []) ∧
        (¬(t = "" ∨ c < mkRat 3 10) → ∃ (toks : List String) (reply : String),
            assistBlock
            = toks.map (fun w => Ev.assistantText w false none)
              ++ [Ev.assistantText "" true (some reply)]) ∧
        (sendsOf acts).Pairwise (fun e1 e2 => stageOf e1 ≤ stageOf e2)) ∧
    (∀ (cb : Collab) (clock : Nat → ℚ) (tids : Nat → String) (sid : String)
       (st : ConnState) (m : InMsg) (ms : List InMsg) (st' : ConnState)
       (a : List Act),
      step cb clock tids sid st m = StepOut.ok st' a →
      runAux cb clock tids sid (m :: ms) st
        = ((runAux cb clock tids sid ms st').1,
           a ++ (runAux cb clock tids sid ms st').2.1,
           (runAux cb clock tids sid ms st').2.2)) := by
  constructor
  · intro cb clock k t0 tid sid raw acts k' hrun
    obtain ⟨t, c, hstt, hor⟩ := processStop_ok cb clock k t0 tid sid raw acts k' hrun
    rcases hor with ⟨hcond, htts⟩ | ⟨hcond, content, hllm, htts⟩
    · obtain ⟨audio, htts2, hbr⟩ :=
        ttsPhase_ok cb clock (k + 1) t0 _ _ _ acts k' htts
      refine ⟨t, c, pyRound (ratMul (ratSub (clock k) t0) (mkRat 1000 1)), [],
        chunk_audio audio, hstt, ?_, fun _ => rfl, fun hn => absurd hcond hn, ?_⟩
      · rcases hbr with ⟨hch, hacts, _⟩ | ⟨cc, rest, hch, hacts, _⟩ <;>
          subst hacts <;> rw [hch] <;> simp [sttActs]
      · have hev : sendsOf acts = Ev.sttPartial "..." ::
            Ev.sttFinal t c (pyRound (ratMul (ratSub (clock k) t0) (mkRat 1000 1))) ::
            (([] : List Ev)
              ++ (chunk_audio audio).map
                  (fun cl => Ev.ttsAudioChunk (String.mk (b64encode cl)))
              ++ [Ev.ttsDone]) := by
          rcases hbr with ⟨hch, hacts, _⟩ | ⟨cc, rest, hch, hacts, _⟩ <;>
            subst hacts <;> rw [hch] <;> simp [sttActs]
        rw [hev]
        apply pairwise_stage_structure
        · intro e he
          simp at he
        · intro e he
          rw [List.mem_map] at he
          obtain ⟨cl, _, hcl⟩ := he
          rw [← hcl]
          rfl
    · obtain ⟨audio, htts2, hbr⟩ :=
        ttsPhase_ok cb clock (k + 1) t0 _ _ _ acts k' htts
      refine ⟨t, c, pyRound (ratMul (ratSub (clock k) t0) (mkRat 1000 1)),
        (call_llm_streaming_chunks content).map
            (fun w => Ev.assistantText w false none)
          ++ [Ev.assistantText "" true
              (some ((call_llm_streaming_chunks content).foldl
                (fun acc w => acc ++ w) ""))],
        chunk_audio audio, hstt, ?_, fun hcontra => absurd hcontra hcond,
        fun _ => ⟨call_llm_streaming_chunks content,
          (call_llm_streaming_chunks content).foldl (fun acc w => acc ++ w) "", rfl⟩, ?_⟩
      · rcases hbr with ⟨hch, hacts, _⟩ | ⟨cc, rest, hch, hacts, _⟩ <;>
          subst hacts <;> rw [hch] <;> simp [sttActs, llmActs]
      · have hev : sendsOf acts = Ev.sttPartial "..." ::
            Ev.sttFinal t c (pyRound (ratMul (ratSub (clock k) t0) (mkRat 1000 1))) ::
            (((call_llm_streaming_chunks content).map
                (fun w => Ev.assistantText w false none)
              ++ [Ev.assistantText "" true
                  (some ((call_llm_streaming_chunks content).foldl
                    (fun acc w => acc ++ w) ""))])
              ++ (chunk_audio audio).map
                  (fun cl => Ev.ttsAudioChunk (String.mk (b64encode cl)))
              ++ [Ev.ttsDone]) := by
          rcases hbr with ⟨hch, hacts, _⟩ | ⟨cc, rest, hch, hacts, _⟩ <;>
            subst hacts <;> rw [hch] <;> simp [sttActs, llmActs]
        rw [hev]
        apply pairwise_stage_structure
        · intro e he
          rcases List.mem_append.mp he with h | h
          · rw [List.mem_map] at h
            obtain ⟨w, _, hw⟩ := h
            rw [← hw]
            rfl
          · simp only [List.mem_singleton] at h
            subst h
            rfl
        · intro e he
          rw [List.mem_map] at he
          obtain ⟨cl, _, hcl⟩ := he
          rw [← hcl]
          rfl
  · intro cb clock tids sid st m ms st' a h
    simp [runAux, h]

/-- Witness for the amended C4: the fallback turn of the counterexample
(whose assistant block is empty) and a concrete "start" step showing that
the loop appends each message's trace as one contiguous block. -/
theorem event_order_amended_witness :
    processStop cbSil clockW 0 0 "t0" "s" [9]
      = ((processStop cbSil clockW 0 0 "t0" "s" [9]).1,
         (processStop cbSil clockW 0 0 "t0" "s" [9]).2.1, none) ∧
    (∃ (t : String) (c : ℚ) (ms : ℤ) (assistBlock : List Ev)
      (chunks : List (List Nat)),
      transcribe_audio cbSil [9] = Except.ok (t, c) ∧
      sendsOf (processStop cbSil clockW 0 0 "t0" "s" [9]).1
        = Ev.sttPartial "..." :: Ev.sttFinal t c ms ::
          (assistBlock
            ++ chunks.map (fun cl => Ev.ttsAudioChunk (String.mk (b64encode cl)))
            ++ [Ev.ttsDone]) ∧
      ((t = "" ∨ c < mkRat 3 10) → assistBlock = []) ∧
      (¬(t = "" ∨ c < mkRat 3 10) → ∃ (toks : List String) (reply : String),
          assistBlock
          = toks.map (fun w => Ev.assistantText w false none)
            ++ [Ev.assistantText "" true (some reply)]) ∧
      (sendsOf (processStop cbSil clockW 0 0 "t0" "s" [9]).1).Pairwise
        (fun e1 e2 => stageOf e1 ≤ stageOf e2)) ∧
    step cbW clockW tidsW "s" initState InMsg.start
      = StepOut.ok stStart [Act.send (Ev.traceTurnStarted "t0" (clockW 0))] ∧
    runAux cbW clockW tidsW "s" [InMsg.start] initState
      = ((runAux cbW clockW tidsW "s" [] stStart).1,
         [Act.send (Ev.traceTurnStarted "t0" (clockW 0))]
           ++ (runAux cbW clockW tidsW "s" [] stStart).2.1,
         (runAux cbW clockW tidsW "s" [] stStart).2.2) :=
  ⟨by decide,
   event_order_amended.1 cbSil clockW 0 0 "t0" "s" [9]
     ((processStop cbSil clockW 0 0 "t0" "s" [9]).1)
     ((processStop cbSil clockW 0 0 "t0" "s" [9]).2.1) (by decide),
   by decide,
   event_order_amended.2 cbW clockW tidsW "s" initState InMsg.start [] stStart
     [Act.send (Ev.traceTurnStarted "t0" (clockW 0))] (by decide)⟩

/-- Counterexample to C9 as stated: a turn completes (its end timestamp is
set, both other latencies are recorded) yet its `time_to_first_partial`
field is still null — the pipeline never writes it. -/
theorem first_partial_counterexample :
    ((run cbW clockW tidsW "s"
        [InMsg.start, InMsg.audio [7], InMsg.stop, InMsg.endCall]).1.turns.map
      (fun t => t.time_to_first_partial)) = [none] ∧
    ((run cbW clockW tidsW "s"
        [InMsg.start, InMsg.audio [7], InMsg.stop, InMsg.endCall]).1.turns.map
      (fun t => t.ended_at.isSome)) = [true] ∧
    ((run cbW clockW tidsW "s"
        [InMsg.start, InMsg.audio [7], InMsg.stop, InMsg.endCall]).1.turns.map
      (fun t => (t.time_to_final_transcript.isSome, t.time_to_first_audio.isSome)))
      = [(true, true)] := by
  decide

/-- No commit of the TTS stage ever sets `time_to_first_partial`. -/
theorem ttsPhase_ttfp (cb : Collab) (clock : Nat → ℚ) (k : Nat) (t0 : ℚ)
    (turn : TurnRec) (acts0 : List Act) (reply : String)
    (hturn : turn.time_to_first_partial = none)
    (h0 : ∀ tr ∈ commitsOf acts0, tr.time_to_first_partial = none) :
    ∀ tr ∈ commitsOf (ttsPhase cb clock k t0 turn acts0 reply).1,
      tr.time_to_first_partial = none := by
  unfold ttsPhase
  split
  · exact h0
  · split
    · intro tr htr
      simp only [commitsOf_append, commitsOf_cons_send, commitsOf_cons_commit,
        commitsOf_nil, List.mem_append, List.mem_cons, List.not_mem_nil,
        or_false] at htr
      rcases htr with h | rfl
      · exact h0 tr h
      · simpa using hturn
    · intro tr htr
      simp only [commitsOf_append, commitsOf_cons_commit, commitsOf_cons_send,
        commitsOf_map_send, commitsOf_nil, List.append_nil, List.mem_append,
        List.mem_cons, List.not_mem_nil, or_false] at htr
      rcases htr with (h | rfl) | rfl
      · exact h0 tr h
      · simpa using hturn
      · simpa using hturn

/-- No commit of the stop pipeline ever sets `time_to_first_partial`. -/
theorem processStop_ttfp (cb : Collab) (clock : Nat → ℚ) (k : Nat) (t0 : ℚ)
    (tid sid : String) (raw : List Nat) :
    ∀ tr ∈ commitsOf (processStop cb clock k t0 tid sid raw).1,
      tr.time_to_first_partial = none := by
  unfold processStop
  split
  · intro tr htr
    simp only [commitsOf_cons_commit, commitsOf_cons_send, commitsOf_nil,
      List.mem_cons, List.not_mem_nil, or_false] at htr
    subst htr
    rfl
  · split
    · apply ttsPhase_ttfp
      · rfl
      · intro tr htr
        simp only [commitsOf_append, commitsOf_cons_commit, commitsOf_cons_send,
          commitsOf_nil, List.mem_append, List.mem_cons, List.not_mem_nil,
          or_false, List.append_nil] at htr
        rcases htr with h | h <;> subst h <;> rfl
    · split
      · intro tr htr
        simp only [commitsOf_append, commitsOf_cons_commit, commitsOf_cons_send,
          commitsOf_nil, List.mem_append, List.mem_cons, List.not_mem_nil,
          or_false, List.append_nil] at htr
        rcases htr with h | h <;> subst h <;> rfl
      · apply ttsPhase_ttfp
        · rfl
        · intro tr htr
          simp only [commitsOf_append, commitsOf_cons_commit, commitsOf_cons_send,
            commitsOf_map_send, commitsOf_nil, List.mem_append, List.mem_cons,
            List.not_mem_nil, or_false, List.append_nil] at htr
          rcases htr with h | h <;> subst h <;> rfl

/-- Claim C9 as amended: the Turn schema carries a `time_to_first_partial`
column alongside the other two latencies, but the pipeline never records
the first-partial milestone: on every committed turn row of every run the
field is still null.  (That it is recorded on completed turns is refuted
by the counterexample.) -/
theorem first_partial_amended (cb : Collab) (clock : Nat → ℚ)
    (tids : Nat → String) (sid : String) (msgs : List InMsg) :
    ∀ tr ∈ (run cb clock tids sid msgs).1.turns,
      tr.time_to_first_partial = none := by
  suffices h : ∀ (ms : List InMsg) (st : ConnState),
      (∀ tr ∈ st.turns, tr.time_to_first_partial = none) →
      ∀ tr ∈ (runAux cb clock tids sid ms st).1.turns,
        tr.time_to_first_partial = none by
    intro tr htr
    exact h msgs initState (by intro tr htr2; simp [initState] at htr2) tr htr
  intro ms
  induction ms with
  | nil =>
    intro st hst
    exact hst
  | cons m rest ih =>
    intro st hst
    cases m with
    | audio b =>
      by_cases hb : b = []
      · simpa [runAux, step, hb] using ih st hst
      · simpa [runAux, step, hb] using
          ih { st with audio_buffer := st.audio_buffer ++ b } hst
    | start =>
      simp only [runAux, step]
      exact ih _ hst
    | stop =>
      by_cases hb : st.audio_buffer = []
      · simpa [runAux, step, hb] using ih st hst
      · cases ht : st.turn_start_time with
        | none =>
          simp only [runAux, step, if_neg hb, ht]
          exact hst
        | some t0 =>
          have hnew : ∀ tr ∈ st.turns ++
              (lastCommit (processStop cb clock st.clk t0
                (st.current_turn_id.getD "") sid st.audio_buffer).1).toList,
              tr.time_to_first_partial = none := by
            intro tr htr
            rcases List.mem_append.mp htr with h | h
            · exact hst tr h
            · rw [Option.mem_toList] at h
              apply processStop_ttfp cb clock st.clk t0
                (st.current_turn_id.getD "") sid st.audio_buffer tr
              unfold lastCommit at h
              exact List.mem_of_mem_getLast? h
          simp only [runAux, step, if_neg hb, ht]
          cases herr : (processStop cb clock st.clk t0
              (st.current_turn_id.getD "") sid st.audio_buffer).2.2 with
          | none => exact ih _ hnew
          | some e => exact hnew
    | endCall =>
      simp only [runAux, step]
      exact hst
    | other =>
      simpa [runAux, step] using ih st hst

/-- Witness for the amended C9: the completed turn of a concrete run has a
null `time_to_first_partial`. -/
theorem first_partial_amended_witness :
    ((run cbW clockW tidsW "s"
        [InMsg.start, InMsg.audio [7], InMsg.stop, InMsg.endCall]).1.turns.getD 0 turnW)
      ∈ (run cbW clockW tidsW "s"
        [InMsg.start, InMsg.audio [7], InMsg.stop, InMsg.endCall]).1.turns ∧
    ((run cbW clockW tidsW "s"
        [InMsg.start, InMsg.audio [7], InMsg.stop, InMsg.endCall]).1.turns.getD 0 turnW
      |> TurnRec.time_to_first_partial) = none :=
  ⟨by decide,
   first_partial_amended cbW clockW tidsW "s"
     [InMsg.start, InMsg.audio [7], InMsg.stop, InMsg.endCall]
     ((run cbW clockW tidsW "s"
        [InMsg.start, InMsg.audio [7], InMsg.stop, InMsg.endCall]).1.turns.getD 0 turnW)
     (by decide)⟩

end S2S

